import Mathlib

/-!
# Verification model of `main.go` (S3 image optimisation Lambda)

The Go program lists the objects of a source bucket, then runs three worker
goroutines that pull keys from a buffered channel and, for every key, download
the object, re-encode it, and upload it under `optimized/<key>`.

The model is a shallow embedding:

* the AWS SDK, the image codec and the process environment are a `World`
  record of functions (the store may answer differently on every call: its
  functions receive the history of events so far);
* `ListImages`, `DownloadImage`, `UploadImage`, `OptimizeImage` are functions;
  `UploadImage` also returns the `PutObject` requests it sent, and the history
  records those requests as the uploads;
* the goroutines of `LambdaHandler` are a small-step machine: `mainStep` is one
  step of the handler goroutine, `workerStep` one step of a `Worker`
  goroutine, and a schedule (a list of thread numbers) picks who moves next.
  A thread that cannot move (blocked on the channel or on the wait group)
  leaves the state unchanged.
-/

namespace ImageOptimize

deriving instance DecidableEq for Except

/-- Contents of an object or of an encoded image. -/
abbrev Bytes := List Nat

/-- One entry of a `ListObjectsV2` page: `types.Object` with the two fields the code reads. -/
structure S3Object where
  key : String
  size : Int
deriving DecidableEq, Repr

/-- What a goroutine did in one step, with the result it observed. -/
inductive Action where
  /-- `config.LoadDefaultConfig` inside `NewS3Client`. -/
  | loadConfig (res : Except String Unit)
  /-- The call `s3Client.ListImages(ctx)`. -/
  | listImages (bucket pfx : String) (res : Except String (List String))
  /-- `wg.Add(1); go Worker(...)` for worker number `i`. -/
  | spawn (i : Nat)
  /-- `jobs <- key`. -/
  | send (key : String)
  /-- `close(jobs)`. -/
  | close
  /-- `LambdaHandler` returns. -/
  | ret (res : Except String Unit)
  /-- A worker receives `key` from `jobs` (one iteration of `for key := range jobs`). -/
  | recv (key : String)
  /-- The call `s3Client.DownloadImage(ctx, key)`. -/
  | download (key : String) (res : Except String Bytes)
  /-- The call `OptimizeImage(imgData)` while processing `key`. -/
  | optimize (key : String) (input : Bytes) (res : Except String Bytes)
  /-- A `PutObject` request that `s3Client.UploadImage(ctx, dstKey, optimizedData)` made
  while processing `key`: the bucket, key and body of the request as the store received
  it, and the store's answer. -/
  | upload (key bucket dstKey : String) (data : Bytes) (res : Except String Unit)
  /-- The deferred `wg.Done()` when a worker leaves its loop. -/
  | done
deriving DecidableEq

/-- An action together with the goroutine that performed it:
thread `0` is the handler, thread `i + 1` is worker `i`. -/
structure Event where
  tid : Nat
  act : Action
deriving DecidableEq

/-- Everything outside the program: environment variables, the AWS SDK and the
image libraries. `hist` arguments are the events so far, most recent first. -/
structure World (Img : Type) where
  /-- Environment lookup; `none` when the variable is not set. -/
  getenv : String → Option String
  /-- The result of `config.LoadDefaultConfig`. -/
  loadConfig : Except String Unit
  /-- The responses of the paginator for bucket and key filter, one per `NextPage`. -/
  listPages : String → String → List (Except String (List S3Object))
  /-- The call `GetObject bucket key`: the outer result is the call, the inner one reading the body. -/
  getObject : List Event → String → String → Except String (Except String Bytes)
  /-- The call `PutObject bucket key body`. -/
  putObject : List Event → String → String → Bytes → Except String Unit
  /-- The function `image.Decode`. -/
  decode : Bytes → Except String Img
  /-- The function `imaging.Resize img width height imaging.Lanczos`. -/
  resize : Img → Nat → Nat → Img
  /-- The function `jpeg.Encode` at a quality. -/
  encode : Img → Nat → Except String Bytes

/-- `os.Getenv`: the value of the variable, the empty string when it is not set. -/
def Getenv {Img : Type} (W : World Img) (name : String) : String :=
  (W.getenv name).getD ""

/-- The struct `S3Client`; its `client` field is the SDK handle, here the `World`. -/
structure S3Client where
  srcBucket : String
  dstBucket : String
deriving DecidableEq

/-- `NewS3Client` (declared `News3Client` in the source): fails when the AWS
configuration cannot be loaded, and checks nothing about the bucket names. -/
def NewS3Client {Img : Type} (W : World Img) (srcBucket dstBucket : String) :
    Except String S3Client :=
  match W.loadConfig with
  | .error err => .error err
  | .ok _ => .ok { srcBucket := srcBucket, dstBucket := dstBucket }

/-- The inner loop of `ListImages`: append the key of every object of the page
whose size is positive. -/
def collectPage (imageKeys : List String) (page : List S3Object) : List String :=
  page.foldl (fun acc object => if object.size > 0 then acc ++ [object.key] else acc) imageKeys

/-- The outer loop of `ListImages` over the paginator's responses; a failed page
ends the listing with that error (the source's `return nil, err, fmt.Errorf(...)`
is read as returning the error `err`). -/
def listLoop (imageKeys : List String) :
    List (Except String (List S3Object)) → Except String (List String)
  | [] => .ok imageKeys
  | .error err :: _ => .error err
  | .ok page :: rest => listLoop (collectPage imageKeys page) rest

/-- `ListImages`: all pages under the key filter `uuid/` of the source bucket. -/
def ListImages {Img : Type} (W : World Img) (s : S3Client) : Except String (List String) :=
  listLoop [] (W.listPages s.srcBucket "uuid/")

/-- `DownloadImage`: `GetObject` on the source bucket, then read the whole body. -/
def DownloadImage {Img : Type} (W : World Img) (hist : List Event) (s : S3Client)
    (key : String) : Except String Bytes :=
  match W.getObject hist s.srcBucket key with
  | .error err => .error ("failed to download " ++ key ++ ": " ++ err)
  | .ok body =>
    match body with
    | .error err => .error ("failed to read " ++ key ++ ": " ++ err)
    | .ok buf => .ok buf

/-- The struct `s3.PutObjectInput` with the three fields the code sets. -/
structure PutObjectInput where
  bucket : String
  key : String
  body : Bytes
deriving DecidableEq

/-- The SDK call `s.client.PutObject(ctx, input)`: the store's answer to the request,
and the requests that reached the store (this one). -/
def PutObject {Img : Type} (W : World Img) (hist : List Event) (input : PutObjectInput) :
    Except String Unit × List PutObjectInput :=
  (W.putObject hist input.bucket input.key input.body, [input])

/-- `UploadImage`: one `PutObject` on the destination bucket with the key and the data
given; returns the error of that call, and the requests it sent to the store. -/
def UploadImage {Img : Type} (W : World Img) (hist : List Event) (s : S3Client)
    (key : String) (data : Bytes) : Except String Unit × List PutObjectInput :=
  PutObject W hist { bucket := s.dstBucket, key := key, body := data }

/-- `OptimizeImage`: decode, resize to width 800 keeping the ratio, encode as JPEG quality 80. -/
def OptimizeImage {Img : Type} (W : World Img) (imageData : Bytes) : Except String Bytes :=
  match W.decode imageData with
  | .error err => .error ("failed to decode image: " ++ err)
  | .ok img =>
    match W.encode (W.resize img 800 0) 80 with
    | .error err => .error ("failed to encode image: " ++ err)
    | .ok buf => .ok buf

/-- A buffered Go channel of strings. -/
structure Chan where
  buf : List String
  cap : Nat
  closed : Bool
deriving DecidableEq

/-- Where a `Worker` goroutine stands. -/
inductive WState where
  /-- At the head of `for key := range jobs`. -/
  | idle
  /-- Holds `key`, about to call `DownloadImage`. -/
  | got (key : String)
  /-- Holds `imgData`, about to call `OptimizeImage`. -/
  | downloaded (key : String) (imgData : Bytes)
  /-- Holds `optimizedData`, about to call `UploadImage`. -/
  | optimized (key : String) (optimizedData : Bytes)
  /-- Left the loop and ran `wg.Done()`. -/
  | exited
deriving DecidableEq

/-- Where the handler goroutine stands. -/
inductive MainPc where
  /-- In `for i := 0; i < numWorkers; i++`, about to test `i`. -/
  | spawning (i : Nat)
  /-- In `for _, key := range imageKeys`, with `rest` still to send; `close(jobs)` when empty. -/
  | sending (rest : List String)
  /-- At `wg.Wait()`. -/
  | waiting
  /-- Returned from `LambdaHandler`. -/
  | returned (res : Except String Unit)
  /-- A Go runtime panic (send on or close of a closed channel, close of a nil channel). -/
  | panicked
deriving DecidableEq

/-- The variables of one invocation of `LambdaHandler`. -/
structure State where
  srcBucket : String
  dstBucket : String
  imageKeys : List String
  /-- The channel `jobs`, `none` until `make` runs. -/
  jobs : Option Chan
  /-- The counter of the `sync.WaitGroup`. -/
  wg : Nat
  /-- The worker goroutines started so far, by number. -/
  workers : List WState
  main : MainPc
  /-- The events so far, most recent first. -/
  log : List Event
deriving DecidableEq

/-- The constant `numWorkers := 3`. -/
def numWorkers : Nat := 3

/-- One step of the `Worker` goroutine number `i`; `none` when it cannot move. -/
def workerStep {Img : Type} (W : World Img) (i : Nat) (st : State) : Option State :=
  match st.workers[i]? with
  | none => none
  | some ws =>
    let s3Client : S3Client := { srcBucket := st.srcBucket, dstBucket := st.dstBucket }
    match ws with
    | .idle =>
      match st.jobs with
      | none => none
      | some c =>
        match c.buf with
        | key :: rest =>
          some { st with
            jobs := some { c with buf := rest }
            workers := st.workers.set i (.got key)
            log := ⟨i + 1, .recv key⟩ :: st.log }
        | [] =>
          if c.closed then
            some { st with
              wg := st.wg - 1
              workers := st.workers.set i .exited
              log := ⟨i + 1, .done⟩ :: st.log }
          else none
    | .got key =>
      match DownloadImage W st.log s3Client key with
      | .error err =>
        some { st with
          workers := st.workers.set i .idle
          log := ⟨i + 1, .download key (.error err)⟩ :: st.log }
      | .ok imgData =>
        some { st with
          workers := st.workers.set i (.downloaded key imgData)
          log := ⟨i + 1, .download key (.ok imgData)⟩ :: st.log }
    | .downloaded key imgData =>
      match OptimizeImage W imgData with
      | .error err =>
        some { st with
          workers := st.workers.set i .idle
          log := ⟨i + 1, .optimize key imgData (.error err)⟩ :: st.log }
      | .ok optimizedData =>
        some { st with
          workers := st.workers.set i (.optimized key optimizedData)
          log := ⟨i + 1, .optimize key imgData (.ok optimizedData)⟩ :: st.log }
    | .optimized key optimizedData =>
      let dstKey := "optimized/" ++ key
      let up := UploadImage W st.log s3Client dstKey optimizedData
      some { st with
        workers := st.workers.set i .idle
        log := up.2.map (fun q => ⟨i + 1, .upload key q.bucket q.key q.body up.1⟩) ++ st.log }
    | .exited => none

/-- One step of the handler goroutine after `make(chan string, len(imageKeys))`;
`none` when it cannot move. -/
def mainStep (st : State) : Option State :=
  match st.main with
  | .spawning i =>
    if i < numWorkers then
      some { st with
        wg := st.wg + 1
        workers := st.workers ++ [.idle]
        main := .spawning (i + 1)
        log := ⟨0, .spawn i⟩ :: st.log }
    else
      some { st with main := .sending st.imageKeys }
  | .sending (key :: rest) =>
    match st.jobs with
    | none => none
    | some c =>
      if c.closed then some { st with main := .panicked }
      else if c.buf.length < c.cap then
        some { st with
          jobs := some { c with buf := c.buf ++ [key] }
          main := .sending rest
          log := ⟨0, .send key⟩ :: st.log }
      else none
  | .sending [] =>
    match st.jobs with
    | none => some { st with main := .panicked }
    | some c =>
      if c.closed then some { st with main := .panicked }
      else
        some { st with
          jobs := some { c with closed := true }
          main := .waiting
          log := ⟨0, .close⟩ :: st.log }
  | .waiting =>
    if st.wg = 0 then
      some { st with main := .returned (.ok ()), log := ⟨0, .ret (.ok ())⟩ :: st.log }
    else none
  | .returned _ => none
  | .panicked => none

/-- One step of thread `t`: `0` is the handler, `i + 1` is worker `i`. -/
def step {Img : Type} (W : World Img) (st : State) : Nat → Option State
  | 0 => mainStep st
  | i + 1 => workerStep W i st

/-- Run a schedule; a thread that cannot move leaves the state as it is. -/
def exec {Img : Type} (W : World Img) (st : State) : List Nat → State
  | [] => st
  | t :: ts => exec W ((step W st t).getD st) ts

/-- The state of `LambdaHandler` right after `make(chan string, len(imageKeys))`,
for a non-empty listing `keys`. -/
def runState (srcBucket dstBucket : String) (keys : List String) : State :=
  { srcBucket := srcBucket
    dstBucket := dstBucket
    imageKeys := keys
    jobs := some { buf := [], cap := keys.length, closed := false }
    wg := 0
    workers := []
    main := .spawning 0
    log := [⟨0, .listImages srcBucket "uuid/" (.ok keys)⟩, ⟨0, .loadConfig (.ok ())⟩] }

/-- A state in which `LambdaHandler` has returned `res` before creating anything. -/
def earlyReturn (srcBucket dstBucket : String) (keys : List String)
    (res : Except String Unit) (log : List Event) : State :=
  { srcBucket := srcBucket
    dstBucket := dstBucket
    imageKeys := keys
    jobs := none
    wg := 0
    workers := []
    main := .returned res
    log := ⟨0, .ret res⟩ :: log }

/-- The sequential first part of `LambdaHandler`, up to the creation of `jobs`. -/
def handlerStart {Img : Type} (W : World Img) : State :=
  let srcBucket := Getenv W "SOURCE_BUCKET"
  let dstBucket := Getenv W "DESTINATION_BUCKET"
  match NewS3Client W srcBucket dstBucket with
  | .error err =>
    earlyReturn srcBucket dstBucket []
      (.error ("failed to initialize S3 client: " ++ err)) [⟨0, .loadConfig (.error err)⟩]
  | .ok s3Client =>
    match ListImages W s3Client with
    | .error err =>
      earlyReturn srcBucket dstBucket [] (.error ("failed to list images: " ++ err))
        [⟨0, .listImages s3Client.srcBucket "uuid/" (.error err)⟩, ⟨0, .loadConfig (.ok ())⟩]
    | .ok imageKeys =>
      if imageKeys.length = 0 then
        earlyReturn srcBucket dstBucket imageKeys (.ok ())
          [⟨0, .listImages s3Client.srcBucket "uuid/" (.ok imageKeys)⟩, ⟨0, .loadConfig (.ok ())⟩]
      else runState s3Client.srcBucket s3Client.dstBucket imageKeys

/-- `LambdaHandler` under a schedule of its goroutines. -/
def LambdaHandler {Img : Type} (W : World Img) (sched : List Nat) : State :=
  exec W (handlerStart W) sched

/-- The value `LambdaHandler` returned, if it has returned. -/
def State.result (st : State) : Option (Except String Unit) :=
  match st.main with
  | .returned res => some res
  | _ => none

/-! ## Reading the event history -/

/-- Collect `f a` over a list, in list order. -/
def gather {α β : Type} (f : α → List β) : List α → List β
  | [] => []
  | a :: l => f a ++ gather f l

/-- The keys received from `jobs`, most recent first. -/
def recvd (log : List Event) : List String :=
  gather (fun e => match e.act with | .recv key => [key] | _ => []) log

/-- The keys sent on `jobs`, most recent first. -/
def sent (log : List Event) : List String :=
  gather (fun e => match e.act with | .send key => [key] | _ => []) log

/-- The keys for which `DownloadImage` was called, most recent first. -/
def downloads (log : List Event) : List String :=
  gather (fun e => match e.act with | .download key _ => [key] | _ => []) log

/-- The calls of `OptimizeImage`, as source keys, most recent first. -/
def optimizes (log : List Event) : List String :=
  gather (fun e => match e.act with | .optimize key _ _ => [key] | _ => []) log

/-- The key whose processing ends with this action: a failed download, a failed
optimisation, or an upload (whatever its result). -/
def outcomeKey : Action → List String
  | .download key (.error _) => [key]
  | .optimize key _ (.error _) => [key]
  | .upload key _ _ _ _ => [key]
  | _ => []

/-- The keys that reached a terminal outcome, most recent first. -/
def outcomes (log : List Event) : List String :=
  gather (fun e => outcomeKey e.act) log

/-- An upload attempt: the source key being processed, and the bucket, key and body of
the `PutObject` request sent for it. -/
structure Put where
  key : String
  bucket : String
  dstKey : String
  data : Bytes
deriving DecidableEq

/-- The upload attempts (the `PutObject` requests sent), most recent first. -/
def uploads (log : List Event) : List Put :=
  gather (fun e => match e.act with
    | .upload key bucket dstKey data _ => [⟨key, bucket, dstKey, data⟩]
    | _ => []) log

/-- The upload that a download result calls for: none after a failed download
or when `OptimizeImage` rejects the bytes. -/
def putFor {Img : Type} (W : World Img) (dstBucket key : String) (imgData : Bytes) : List Put :=
  match OptimizeImage W imgData with
  | .ok data => [⟨key, dstBucket, "optimized/" ++ key, data⟩]
  | .error _ => []

/-- The number of downloads of `k` in the history that returned bytes which
`OptimizeImage` turns into `out`. -/
def goodDownloads {Img : Type} (W : World Img) (k : String) (out : Bytes)
    (log : List Event) : Nat :=
  (gather (fun e => match e.act with
    | .download key (.ok imgData) =>
      if key = k ∧ OptimizeImage W imgData = .ok out then [e] else []
    | _ => []) log).length

/-- The uploads that the successful downloads of the history call for. -/
def expected {Img : Type} (W : World Img) (dstBucket : String) (log : List Event) : List Put :=
  gather (fun e => match e.act with
    | .download key (.ok imgData) => putFor W dstBucket key imgData
    | _ => []) log

/-- The threads that ran `wg.Done()`, most recent first. -/
def dones (log : List Event) : List Nat :=
  gather (fun e => match e.act with | .done => [e.tid] | _ => []) log

/-- The operations of the handler on `jobs`, most recent first. -/
def chanOps (log : List Event) : List Action :=
  gather (fun e => match e.act with
    | .send key => [.send key]
    | .close => [.close]
    | _ => []) log

/-- The key a worker is holding. -/
def WState.held : WState → List String
  | .got key => [key]
  | .downloaded key _ => [key]
  | .optimized key _ => [key]
  | _ => []

/-- The key a worker holds and has not yet tried to download. -/
def WState.fresh : WState → List String
  | .got key => [key]
  | _ => []

/-- The upload a worker still owes for the data it holds. -/
def WState.owes {Img : Type} (W : World Img) (dstBucket : String) : WState → List Put
  | .downloaded key imgData => putFor W dstBucket key imgData
  | .optimized key data => [⟨key, dstBucket, "optimized/" ++ key, data⟩]
  | _ => []

/-- A worker that has not run `wg.Done()`. -/
def WState.running : WState → Bool
  | .exited => false
  | _ => true

/-- The buffer of `jobs`. -/
def State.buf (st : State) : List String :=
  match st.jobs with
  | some c => c.buf
  | none => []

/-- The capacity of `jobs`. -/
def State.cap (st : State) : Nat :=
  match st.jobs with
  | some c => c.cap
  | none => 0

/-- Whether `jobs` is closed. -/
def State.closed (st : State) : Bool :=
  match st.jobs with
  | some c => c.closed
  | none => false

/-- The keys the handler has not sent yet. -/
def State.unsent (st : State) : List String :=
  match st.main with
  | .spawning _ => st.imageKeys
  | .sending rest => rest
  | _ => []

/-- The number of workers the handler has started when it stands at `pc`. -/
def MainPc.started : MainPc → Nat
  | .spawning i => i
  | _ => numWorkers

/-- Whether the handler is past `close(jobs)`. -/
def MainPc.pastClose : MainPc → Bool
  | .waiting => true
  | .returned _ => true
  | _ => false

/-- The steps of the machine, case by case (the graph of `step`). -/
inductive Step {Img : Type} (W : World Img) : State → State → Prop
  | spawn (st : State) (i : Nat) (hm : st.main = .spawning i) (hi : i < numWorkers) :
      Step W st { st with
        wg := st.wg + 1
        workers := st.workers ++ [.idle]
        main := .spawning (i + 1)
        log := ⟨0, .spawn i⟩ :: st.log }
  | startSend (st : State) (i : Nat) (hm : st.main = .spawning i) (hi : ¬ i < numWorkers) :
      Step W st { st with main := .sending st.imageKeys }
  | sendPanic (st : State) (key : String) (rest : List String) (c : Chan)
      (hm : st.main = .sending (key :: rest)) (hj : st.jobs = some c) (hc : c.closed = true) :
      Step W st { st with main := .panicked }
  | send (st : State) (key : String) (rest : List String) (c : Chan)
      (hm : st.main = .sending (key :: rest)) (hj : st.jobs = some c) (hc : c.closed = false)
      (hlen : c.buf.length < c.cap) :
      Step W st { st with
        jobs := some { c with buf := c.buf ++ [key] }
        main := .sending rest
        log := ⟨0, .send key⟩ :: st.log }
  | closeNil (st : State) (hm : st.main = .sending []) (hj : st.jobs = none) :
      Step W st { st with main := .panicked }
  | closePanic (st : State) (c : Chan) (hm : st.main = .sending []) (hj : st.jobs = some c)
      (hc : c.closed = true) :
      Step W st { st with main := .panicked }
  | close (st : State) (c : Chan) (hm : st.main = .sending []) (hj : st.jobs = some c)
      (hc : c.closed = false) :
      Step W st { st with
        jobs := some { c with closed := true }
        main := .waiting
        log := ⟨0, .close⟩ :: st.log }
  | ret (st : State) (hm : st.main = .waiting) (hw : st.wg = 0) :
      Step W st { st with main := .returned (.ok ()), log := ⟨0, .ret (.ok ())⟩ :: st.log }
  | recv (st : State) (l1 l2 : List WState) (c : Chan) (key : String) (rest : List String)
      (hw : st.workers = l1 ++ .idle :: l2) (hj : st.jobs = some c) (hb : c.buf = key :: rest) :
      Step W st { st with
        jobs := some { c with buf := rest }
        workers := l1 ++ .got key :: l2
        log := ⟨l1.length + 1, .recv key⟩ :: st.log }
  | exit (st : State) (l1 l2 : List WState) (c : Chan)
      (hw : st.workers = l1 ++ .idle :: l2) (hj : st.jobs = some c) (hb : c.buf = [])
      (hc : c.closed = true) :
      Step W st { st with
        wg := st.wg - 1
        workers := l1 ++ .exited :: l2
        log := ⟨l1.length + 1, .done⟩ :: st.log }
  | dlErr (st : State) (l1 l2 : List WState) (key err : String)
      (hw : st.workers = l1 ++ .got key :: l2)
      (hd : DownloadImage W st.log ⟨st.srcBucket, st.dstBucket⟩ key = .error err) :
      Step W st { st with
        workers := l1 ++ .idle :: l2
        log := ⟨l1.length + 1, .download key (.error err)⟩ :: st.log }
  | dlOk (st : State) (l1 l2 : List WState) (key : String) (imgData : Bytes)
      (hw : st.workers = l1 ++ .got key :: l2)
      (hd : DownloadImage W st.log ⟨st.srcBucket, st.dstBucket⟩ key = .ok imgData) :
      Step W st { st with
        workers := l1 ++ .downloaded key imgData :: l2
        log := ⟨l1.length + 1, .download key (.ok imgData)⟩ :: st.log }
  | optErr (st : State) (l1 l2 : List WState) (key : String) (imgData : Bytes) (err : String)
      (hw : st.workers = l1 ++ .downloaded key imgData :: l2)
      (ho : OptimizeImage W imgData = .error err) :
      Step W st { st with
        workers := l1 ++ .idle :: l2
        log := ⟨l1.length + 1, .optimize key imgData (.error err)⟩ :: st.log }
  | optOk (st : State) (l1 l2 : List WState) (key : String) (imgData data : Bytes)
      (hw : st.workers = l1 ++ .downloaded key imgData :: l2)
      (ho : OptimizeImage W imgData = .ok data) :
      Step W st { st with
        workers := l1 ++ .optimized key data :: l2
        log := ⟨l1.length + 1, .optimize key imgData (.ok data)⟩ :: st.log }
  | upload (st : State) (l1 l2 : List WState) (key : String) (data : Bytes)
      (hw : st.workers = l1 ++ .optimized key data :: l2) :
      Step W st { st with
        workers := l1 ++ .idle :: l2
        log := ⟨l1.length + 1, .upload key st.dstBucket ("optimized/" ++ key) data
          (W.putObject st.log st.dstBucket ("optimized/" ++ key) data)⟩ :: st.log }

/-- The invariant of a run of the goroutines over the listing `keys`. -/
structure Inv {Img : Type} (W : World Img) (keys : List String) (st : State) : Prop where
  keys_eq : st.imageKeys = keys
  jobs_some : st.jobs ≠ none
  cap_eq : st.cap = keys.length
  conserve : (recvd st.log).reverse ++ st.buf ++ st.unsent = keys
  sent_ok : (sent st.log).reverse ++ st.unsent = keys
  closed_iff : st.closed = st.main.pastClose
  not_panicked : st.main ≠ .panicked
  nworkers : st.workers.length = st.main.started
  spawn_le : st.main.started ≤ numWorkers
  wg_eq : st.wg = st.workers.countP WState.running
  drained : WState.exited ∈ st.workers → st.closed = true ∧ st.buf = []
  ret_ok : ∀ r, st.main = .returned r → r = .ok () ∧ st.wg = 0
  outcome_count : ∀ k, (outcomes st.log).count k + (gather WState.held st.workers).count k
    = (recvd st.log).count k
  dl_count : ∀ k, (downloads st.log).count k + (gather WState.fresh st.workers).count k
    = (recvd st.log).count k
  up_count : ∀ x, (uploads st.log).count x + (gather (WState.owes W st.dstBucket) st.workers).count x
    = (expected W st.dstBucket st.log).count x
  dl_sound : ∀ e ∈ st.log, ∀ k r, e.act = .download k r →
    ∃ hist, r = DownloadImage W hist ⟨st.srcBucket, st.dstBucket⟩ k
  done_count : (dones st.log).length + st.workers.countP WState.running = st.workers.length
  ret_head : ∀ r, st.main = .returned r → ∃ l, st.log = ⟨0, .ret r⟩ :: l
  ops_ok : chanOps st.log
    = (if st.closed then [Action.close] else []) ++ (sent st.log).map Action.send

/-- The number of steps the goroutines can still take: a bound on what remains of the run. -/
def WState.cost : WState → Nat
  | .idle => 1
  | .got _ => 4
  | .downloaded _ _ => 3
  | .optimized _ _ => 2
  | .exited => 0

/-- The steps left to the handler goroutine, with four steps for each key it still has to hand out. -/
def State.mainCost (st : State) : Nat :=
  match st.main with
  | .spawning i => 2 * (numWorkers - i) + 5 * st.imageKeys.length + 3
  | .sending rest => 5 * rest.length + 2
  | .waiting => 1
  | .returned _ => 0
  | .panicked => 0

/-- The termination measure of the machine. -/
def State.measure (st : State) : Nat :=
  st.mainCost + 4 * st.buf.length + ((st.workers.map WState.cost).sum)

/-! ## The iterations of a worker -/

/-- The current iteration of thread `t`: its actions since, and including, its
latest receive from `jobs`, most recent first. -/
def iter (t : Nat) : List Event → List Action
  | [] => []
  | e :: l =>
    if e.tid = t then
      match e.act with
      | .recv key => [.recv key]
      | a => a :: iter t l
    else iter t l

/-- A call of `OptimizeImage`. -/
def Action.isOptimize : Action → Bool
  | .optimize _ _ _ => true
  | _ => false

/-- An upload: the `PutObject` request that a call of `UploadImage` sends. -/
def Action.isUpload : Action → Bool
  | .upload _ _ _ _ _ => true
  | _ => false

/-- The iterations that have run to their end: nothing yet, a failed download,
a failed optimisation, or an upload. -/
def Finished {Img : Type} (W : World Img) (it : List Action) : Prop :=
  it = [] ∨
  (∃ k err, it = [.download k (.error err), .recv k]) ∨
  (∃ k b err, OptimizeImage W b = .error err ∧
    it = [.optimize k b (.error err), .download k (.ok b), .recv k]) ∨
  (∃ k bucket d r b, OptimizeImage W b = .ok d ∧
    it = [.upload k bucket ("optimized/" ++ k) d r, .optimize k b (.ok d),
      .download k (.ok b), .recv k])

/-- The iteration that a worker in a given state has behind it. -/
def shapeFor {Img : Type} (W : World Img) : WState → List Action → Prop
  | .idle, it => Finished W it
  | .got k, it => it = [.recv k]
  | .downloaded k b, it => it = [.download k (.ok b), .recv k]
  | .optimized k d, it => ∃ b, OptimizeImage W b = .ok d ∧
      it = [.optimize k b (.ok d), .download k (.ok b), .recv k]
  | .exited, it => ∃ it', it = .done :: it' ∧ Finished W it'

/-- Every worker's iteration fits its state, and threads not started have no events. -/
def Shapes {Img : Type} (W : World Img) (ws : List WState) (log : List Event) : Prop :=
  ∀ i : Nat, match ws[i]? with
    | some w => shapeFor W w (iter (i + 1) log)
    | none => iter (i + 1) log = []

/-- Every upload in the history is a `PutObject` request on the destination bucket
recorded with the answer the store gave at that point, and every download is recorded
with what `DownloadImage` returned at that point. -/
def Answered {Img : Type} (W : World Img) (s : S3Client) : List Event → Prop
  | [] => True
  | e :: l =>
    (match e.act with
      | .upload _ bucket dstKey data res =>
        bucket = s.dstBucket ∧ res = W.putObject l bucket dstKey data
      | .download key res => res = DownloadImage W l s key
      | _ => True) ∧ Answered W s l

/-! ## Statements of the specification -/

/-- The keys of the objects of positive size, page after page, in the order of each page. -/
def sizedKeys (pages : List (List S3Object)) : List String :=
  (pages.map (fun page => (page.filter (fun object => decide (object.size > 0))).map S3Object.key)).flatten

/-- The client `LambdaHandler` builds from the environment. -/
def clientOf {Img : Type} (W : World Img) : S3Client :=
  { srcBucket := Getenv W "SOURCE_BUCKET", dstBucket := Getenv W "DESTINATION_BUCKET" }

/-- The source key an action is about, for the calls a worker makes. -/
def Action.key : Action → Option String
  | .recv key => some key
  | .download key _ => some key
  | .optimize key _ _ => some key
  | .upload key _ _ _ _ => some key
  | _ => none

/-- A sample world: two pages with a folder marker, the download of `uuid/a.jpg`
fails, images of odd length do not decode, and only `DESTINATION_BUCKET` is unset. -/
def sampleWorld : World Nat where
  getenv := fun v => if v = "SOURCE_BUCKET" then some "src" else none
  loadConfig := .ok ()
  listPages := fun _ _ =>
    [.ok [⟨"uuid/", 0⟩, ⟨"uuid/a.jpg", 5⟩], .ok [⟨"uuid/b.jpg", 7⟩, ⟨"uuid/c.jpg", 9⟩]]
  getObject := fun _ _ k =>
    if k = "uuid/a.jpg" then .error "timeout"
    else if k = "uuid/b.jpg" then .ok (.ok [1, 2]) else .ok (.ok [3])
  putObject := fun _ b _ _ => if b = "" then .error "no bucket" else .ok ()
  decode := fun b => if b.length % 2 = 0 then .ok b.length else .error "bad image"
  resize := fun i _ _ => i
  encode := fun i _ => .ok [i]

/-- A full run of `sampleWorld`: three workers are started, the three keys sent,
the channel closed, and the workers take the keys in turn. -/
def sampleSchedule : List Nat :=
  [0, 0, 0, 0, 0, 0, 0, 0, 1, 2, 3, 1, 2, 3, 2, 3, 2, 1, 2, 3, 0]

/-- A world like `sampleWorld` whose listing holds a folder marker only. -/
def emptyWorld : World Nat :=
  { sampleWorld with listPages := fun _ _ => [.ok [⟨"uuid/", 0⟩]] }

/-- A world like `sampleWorld` in which the AWS configuration cannot be loaded. -/
def brokenWorld : World Nat :=
  { sampleWorld with loadConfig := .error "no credentials" }

/-- A world with ten images on one page, where everything succeeds. -/
def tenWorld : World Nat :=
  { sampleWorld with
    listPages := fun _ _ =>
      [.ok [⟨"uuid/0", 1⟩, ⟨"uuid/1", 1⟩, ⟨"uuid/2", 1⟩, ⟨"uuid/3", 1⟩, ⟨"uuid/4", 1⟩,
        ⟨"uuid/5", 1⟩, ⟨"uuid/6", 1⟩, ⟨"uuid/7", 1⟩, ⟨"uuid/8", 1⟩, ⟨"uuid/9", 1⟩]]
    getObject := fun _ _ _ => .ok (.ok [1, 2])
    getenv := fun v => if v = "SOURCE_BUCKET" then some "src" else some "dst" }

/-- The ten keys of `tenWorld`. -/
def tenKeys : List String :=
  ["uuid/0", "uuid/1", "uuid/2", "uuid/3", "uuid/4", "uuid/5", "uuid/6", "uuid/7", "uuid/8",
    "uuid/9"]

/-- A full run of `tenWorld`: the handler starts the workers, sends ten keys and
closes; the three workers then move in turn; the handler returns. -/
def tenSchedule : List Nat :=
  List.replicate 15 0 ++ (List.replicate 18 [1, 2, 3]).flatten ++ [0]

/-- A world with the two images of the scenario: the download of `uuid/a.jpg` fails
with a transfer error, everything else succeeds. -/
def twoWorld : World Nat :=
  { sampleWorld with
    listPages := fun _ _ => [.ok [⟨"uuid/a.jpg", 5⟩, ⟨"uuid/b.jpg", 7⟩]]
    getObject := fun _ _ k => if k = "uuid/a.jpg" then .error "transfer error" else .ok (.ok [1, 2])
    putObject := fun _ _ _ _ => .ok ()
    getenv := fun v => if v = "SOURCE_BUCKET" then some "src" else some "dst" }

/-- A full run of `twoWorld`, workers 1 and 2 taking one key each. -/
def twoSchedule : List Nat :=
  [0, 0, 0, 0, 0, 0, 0, 1, 2, 1, 2, 2, 2, 1, 2, 3, 0]

/-! ## The machine and its step relation -/

theorem gather_append {α β : Type} (f : α → List β) (l1 l2 : List α) :
    gather f (l1 ++ l2) = gather f l1 ++ gather f l2 := by
  induction l1 with
  | nil => rfl
  | cons a l ih => simp [gather, ih]

theorem getElem?_split {α : Type} (l : List α) (i : Nat) (a : α) (h : l[i]? = some a) :
    ∃ l1 l2, l = l1 ++ a :: l2 ∧ l1.length = i ∧ ∀ b, l.set i b = l1 ++ b :: l2 := by
  induction l generalizing i with
  | nil => simp at h
  | cons x xs ih =>
    cases i with
    | zero =>
      simp at h
      exact ⟨[], xs, by simp [h], rfl, fun b => by simp⟩
    | succ j =>
      simp at h
      obtain ⟨l1, l2, h1, h2, h3⟩ := ih j h
      exact ⟨x :: l1, l2, by simp [h1], by simp [h2], fun b => by simp [h3]⟩

theorem step_sound {Img : Type} (W : World Img) (st st' : State) (t : Nat)
    (h : step W st t = some st') : Step W st st' := by
  cases t with
  | zero =>
    simp only [step, mainStep] at h
    split at h
    · rename_i i hm
      split at h
      · rename_i hi
        cases h
        exact Step.spawn st i hm hi
      · rename_i hi
        cases h
        exact Step.startSend st i hm hi
    · rename_i key rest hm
      split at h
      · cases h
      · rename_i c hj
        split at h
        · rename_i hc
          cases h
          exact Step.sendPanic st key rest c hm hj hc
        · rename_i hc
          split at h
          · rename_i hlen
            cases h
            exact Step.send st key rest c hm hj (by simpa using hc) hlen
          · cases h
    · rename_i hm
      split at h
      · rename_i hj
        cases h
        exact Step.closeNil st hm hj
      · rename_i c hj
        split at h
        · rename_i hc
          cases h
          exact Step.closePanic st c hm hj hc
        · rename_i hc
          cases h
          exact Step.close st c hm hj (by simpa using hc)
    · rename_i hm
      split at h
      · rename_i hw
        cases h
        exact Step.ret st hm hw
      · cases h
    · cases h
    · cases h
  | succ i =>
    simp only [step, workerStep] at h
    split at h
    · cases h
    · rename_i ws hws
      obtain ⟨l1, l2, h1, h2, h3⟩ := getElem?_split _ _ _ hws
      subst h2
      simp only [h3] at h
      split at h
      · split at h
        · cases h
        · rename_i c hj
          split at h
          · rename_i key rest hb
            cases h
            exact Step.recv st l1 l2 c key rest h1 hj hb
          · rename_i hb
            split at h
            · rename_i hc
              cases h
              exact Step.exit st l1 l2 c h1 hj hb hc
            · cases h
      · rename_i key
        split at h
        · rename_i err hd
          cases h
          exact Step.dlErr st l1 l2 key err h1 hd
        · rename_i imgData hd
          cases h
          exact Step.dlOk st l1 l2 key imgData h1 hd
      · rename_i key imgData
        split at h
        · rename_i err ho
          cases h
          exact Step.optErr st l1 l2 key imgData err h1 ho
        · rename_i data ho
          cases h
          exact Step.optOk st l1 l2 key imgData data h1 ho
      · rename_i key data
        cases h
        exact Step.upload st l1 l2 key data h1
      · cases h

/-! ## The invariant -/

theorem Inv.init {Img : Type} (W : World Img) (src dst : String) (keys : List String) :
    Inv W keys (runState src dst keys) := by
  constructor <;>
    simp [runState, State.buf, State.cap, State.closed, State.unsent, MainPc.started,
      MainPc.pastClose, recvd, sent, outcomes, downloads, uploads, expected, gather, outcomeKey, dones, chanOps]

theorem pres_keys {Img : Type} {W : World Img} {keys : List String} {st st' : State}
    (h : Inv W keys st) (hs : Step W st st') : st'.imageKeys = keys := by
  cases hs <;> exact h.keys_eq

theorem pres_jobs {Img : Type} {W : World Img} {keys : List String} {st st' : State}
    (h : Inv W keys st) (hs : Step W st st') : st'.jobs ≠ none := by
  cases hs <;> first | exact h.jobs_some | simp

theorem pres_cap {Img : Type} {W : World Img} {keys : List String} {st st' : State}
    (h : Inv W keys st) (hs : Step W st st') : st'.cap = keys.length := by
  have h3 := h.cap_eq
  cases hs <;> simp_all [State.cap]

theorem pres_conserve {Img : Type} {W : World Img} {keys : List String} {st st' : State}
    (h : Inv W keys st) (hs : Step W st st') :
    (recvd st'.log).reverse ++ st'.buf ++ st'.unsent = keys := by
  have h4 := h.conserve
  have h1 := h.keys_eq
  have h2 := h.jobs_some
  have h6 := h.closed_iff
  cases hs <;> simp_all [State.buf, State.unsent, recvd, gather, State.closed, MainPc.pastClose]

theorem pres_sent {Img : Type} {W : World Img} {keys : List String} {st st' : State}
    (h : Inv W keys st) (hs : Step W st st') :
    (sent st'.log).reverse ++ st'.unsent = keys := by
  have h4 := h.sent_ok
  have h1 := h.keys_eq
  have h2 := h.jobs_some
  have h6 := h.closed_iff
  cases hs <;> simp_all [State.unsent, sent, gather, State.closed, MainPc.pastClose]

theorem pres_closed {Img : Type} {W : World Img} {keys : List String} {st st' : State}
    (h : Inv W keys st) (hs : Step W st st') : st'.closed = st'.main.pastClose := by
  have h2 := h.jobs_some
  have h6 := h.closed_iff
  cases hs <;> simp_all [State.closed, MainPc.pastClose]

theorem pres_not_panicked {Img : Type} {W : World Img} {keys : List String} {st st' : State}
    (h : Inv W keys st) (hs : Step W st st') : st'.main ≠ .panicked := by
  have h2 := h.jobs_some
  have h6 := h.closed_iff
  have h7 := h.not_panicked
  cases hs <;> simp_all [State.closed, MainPc.pastClose]

theorem pres_nworkers {Img : Type} {W : World Img} {keys : List String} {st st' : State}
    (h : Inv W keys st) (hs : Step W st st') :
    st'.workers.length = st'.main.started ∧ st'.main.started ≤ numWorkers := by
  have h8 := h.nworkers
  have h9 := h.spawn_le
  cases hs <;> simp_all [MainPc.started] <;> omega

theorem pres_wg {Img : Type} {W : World Img} {keys : List String} {st st' : State}
    (h : Inv W keys st) (hs : Step W st st') : st'.wg = st'.workers.countP WState.running := by
  have h10 := h.wg_eq
  cases hs <;> simp_all [WState.running, List.countP_append, List.countP_cons]

theorem pres_drained {Img : Type} {W : World Img} {keys : List String} {st st' : State}
    (h : Inv W keys st) (hs : Step W st st') :
    WState.exited ∈ st'.workers → st'.closed = true ∧ st'.buf = [] := by
  have h2 := h.jobs_some
  have h6 := h.closed_iff
  have h11 := h.drained
  cases hs <;> simp_all [State.closed, State.buf, MainPc.pastClose]

theorem pres_ret {Img : Type} {W : World Img} {keys : List String} {st st' : State}
    (h : Inv W keys st) (hs : Step W st st') :
    ∀ r, st'.main = .returned r → r = .ok () ∧ st'.wg = 0 := by
  have h12 := h.ret_ok
  cases hs <;> intro r hr <;>
    first
    | exact h12 r hr
    | (have h0 := h12 r hr; simp_all)
    | simp_all

theorem pres_outcome {Img : Type} {W : World Img} {keys : List String} {st st' : State}
    (h : Inv W keys st) (hs : Step W st st') (k : String) :
    (outcomes st'.log).count k + (gather WState.held st'.workers).count k
      = (recvd st'.log).count k := by
  have h13 := h.outcome_count k
  cases hs <;>
    simp_all [outcomes, recvd, gather, gather_append, outcomeKey, WState.held,
      List.count_cons] <;> omega

theorem pres_dl {Img : Type} {W : World Img} {keys : List String} {st st' : State}
    (h : Inv W keys st) (hs : Step W st st') (k : String) :
    (downloads st'.log).count k + (gather WState.fresh st'.workers).count k
      = (recvd st'.log).count k := by
  have h14 := h.dl_count k
  cases hs <;>
    simp_all [downloads, recvd, gather, gather_append, WState.fresh, List.count_cons] <;> omega

theorem pres_up {Img : Type} {W : World Img} {keys : List String} {st st' : State}
    (h : Inv W keys st) (hs : Step W st st') (x : Put) :
    (uploads st'.log).count x + (gather (WState.owes W st'.dstBucket) st'.workers).count x
      = (expected W st'.dstBucket st'.log).count x := by
  have h15 := h.up_count x
  cases hs <;>
    simp_all [uploads, expected, gather, gather_append, WState.owes, putFor,
      List.count_cons] <;> omega

theorem pres_dl_sound {Img : Type} {W : World Img} {keys : List String} {st st' : State}
    (h : Inv W keys st) (hs : Step W st st') :
    ∀ e ∈ st'.log, ∀ k r, e.act = .download k r →
      ∃ hist, r = DownloadImage W hist ⟨st'.srcBucket, st'.dstBucket⟩ k := by
  have h16 := h.dl_sound
  cases hs with
  | dlErr l1 l2 key err hw hd =>
    intro e he k r hact
    rcases List.mem_cons.mp he with rfl | he
    · cases hact
      exact ⟨st.log, hd.symm⟩
    · exact h16 e he k r hact
  | dlOk l1 l2 key imgData hw hd =>
    intro e he k r hact
    rcases List.mem_cons.mp he with rfl | he
    · cases hact
      exact ⟨st.log, hd.symm⟩
    · exact h16 e he k r hact
  | _ =>
    first
    | exact h16
    | (intro e he k r hact
       rcases List.mem_cons.mp he with rfl | he
       · cases hact
       · exact h16 e he k r hact)

theorem pres_done {Img : Type} {W : World Img} {keys : List String} {st st' : State}
    (h : Inv W keys st) (hs : Step W st st') :
    (dones st'.log).length + st'.workers.countP WState.running = st'.workers.length := by
  have h17 := h.done_count
  cases hs <;>
    simp_all [dones, gather, WState.running, List.countP_append, List.countP_cons] <;> omega

theorem Inv.all_exited {Img : Type} {W : World Img} {keys : List String} {st : State}
    (h : Inv W keys st) {r : Except String Unit} (hr : st.main = .returned r) :
    ∀ w ∈ st.workers, w = .exited := by
  have h0 := (h.ret_ok r hr).2
  rw [h.wg_eq, List.countP_eq_zero] at h0
  intro w hw
  have := h0 w hw
  cases w <;> simp_all [WState.running]

theorem not_returned_of_mem {Img : Type} {W : World Img} {keys : List String} {st : State}
    (h : Inv W keys st) {l1 l2 : List WState} {w : WState} (hw : st.workers = l1 ++ w :: l2)
    (hne : w ≠ .exited) (r : Except String Unit) : st.main ≠ .returned r := by
  intro hr
  exact hne (h.all_exited hr w (by rw [hw]; simp))

theorem pres_ret_head {Img : Type} {W : World Img} {keys : List String} {st st' : State}
    (h : Inv W keys st) (hs : Step W st st') :
    ∀ r, st'.main = .returned r → ∃ l, st'.log = ⟨0, .ret r⟩ :: l := by
  have h18 := h.ret_head
  intro r hr
  cases hs with
  | ret hm hw => cases hr; exact ⟨_, rfl⟩
  | recv l1 l2 c key rest hw hj hb => exact absurd hr (not_returned_of_mem h hw (by simp) r)
  | exit l1 l2 c hw hj hb hc => exact absurd hr (not_returned_of_mem h hw (by simp) r)
  | dlErr l1 l2 key err hw hd => exact absurd hr (not_returned_of_mem h hw (by simp) r)
  | dlOk l1 l2 key imgData hw hd => exact absurd hr (not_returned_of_mem h hw (by simp) r)
  | optErr l1 l2 key imgData err hw ho =>
    exact absurd hr (not_returned_of_mem h hw (by simp) r)
  | optOk l1 l2 key imgData data hw ho =>
    exact absurd hr (not_returned_of_mem h hw (by simp) r)
  | upload l1 l2 key data hw => exact absurd hr (not_returned_of_mem h hw (by simp) r)
  | _ => cases hr

theorem pres_ops {Img : Type} {W : World Img} {keys : List String} {st st' : State}
    (h : Inv W keys st) (hs : Step W st st') :
    chanOps st'.log
      = (if st'.closed then [Action.close] else []) ++ (sent st'.log).map Action.send := by
  have h2 := h.jobs_some
  have h6 := h.closed_iff
  have h19 := h.ops_ok
  cases hs <;> simp_all [chanOps, sent, gather, State.closed, MainPc.pastClose]

theorem Inv.next {Img : Type} {W : World Img} {keys : List String} {st st' : State}
    (h : Inv W keys st) (hs : Step W st st') : Inv W keys st' :=
  { keys_eq := pres_keys h hs
    jobs_some := pres_jobs h hs
    cap_eq := pres_cap h hs
    conserve := pres_conserve h hs
    sent_ok := pres_sent h hs
    closed_iff := pres_closed h hs
    not_panicked := pres_not_panicked h hs
    nworkers := (pres_nworkers h hs).1
    spawn_le := (pres_nworkers h hs).2
    wg_eq := pres_wg h hs
    drained := pres_drained h hs
    ret_ok := pres_ret h hs
    outcome_count := pres_outcome h hs
    dl_count := pres_dl h hs
    up_count := pres_up h hs
    dl_sound := pres_dl_sound h hs
    done_count := pres_done h hs
    ret_head := pres_ret_head h hs
    ops_ok := pres_ops h hs }

theorem exec_append {Img : Type} (W : World Img) (st : State) (s1 s2 : List Nat) :
    exec W st (s1 ++ s2) = exec W (exec W st s1) s2 := by
  induction s1 generalizing st with
  | nil => rfl
  | cons t ts ih => simp [exec, ih]

theorem Inv.exec_inv {Img : Type} {W : World Img} {keys : List String} {st : State}
    (h : Inv W keys st) (sched : List Nat) : Inv W keys (exec W st sched) := by
  induction sched generalizing st with
  | nil => exact h
  | cons t ts ih =>
    simp only [exec]
    cases hst : step W st t with
    | none => simpa using ih h
    | some st' => simpa using ih (h.next (step_sound W st st' t hst))

/-! ## Progress and termination -/

theorem measure_step {Img : Type} {W : World Img} {st st' : State}
    (hs : Step W st st') : st'.measure < st.measure := by
  cases hs <;>
    simp_all [State.measure, State.mainCost, State.buf, WState.cost, numWorkers] <;> omega

theorem exists_running {ws : List WState} (h : 0 < ws.countP WState.running) :
    ∃ (i : Nat) (w : WState), ws[i]? = some w ∧ w.running = true := by
  obtain ⟨w, hw, hr⟩ := List.countP_pos_iff.mp h
  obtain ⟨i, hi⟩ := List.getElem?_of_mem hw
  exact ⟨i, w, hi, hr⟩

theorem progress {Img : Type} {W : World Img} {keys : List String} {st : State}
    (h : Inv W keys st) (hm : ∀ r, st.main ≠ .returned r) :
    ∃ t st', step W st t = some st' := by
  have h2 := h.jobs_some
  have h6 := h.closed_iff
  have h4 := congrArg List.length h.conserve
  have h3 := h.cap_eq
  cases hj : st.jobs with
  | none => exact absurd hj h2
  | some c =>
    cases hmain : st.main with
    | spawning i =>
      by_cases hi : i < numWorkers
      · exact ⟨0, _, by simp [step, mainStep, hmain, hi]; rfl⟩
      · exact ⟨0, _, by simp [step, mainStep, hmain, hi]; rfl⟩
    | sending rest =>
      have hc : c.closed = false := by simpa [State.closed, hj, hmain, MainPc.pastClose] using h6
      cases rest with
      | nil => exact ⟨0, _, by simp [step, mainStep, hmain, hj, hc]; rfl⟩
      | cons key rest =>
        have hlen : c.buf.length < c.cap := by
          simp [State.buf, State.cap, State.unsent, hj, hmain] at h3 h4
          omega
        exact ⟨0, _, by simp [step, mainStep, hmain, hj, hc, hlen]; rfl⟩
    | waiting =>
      have hc : c.closed = true := by simpa [State.closed, hj, hmain, MainPc.pastClose] using h6
      by_cases hw : st.wg = 0
      · exact ⟨0, _, by simp [step, mainStep, hmain, hw]; rfl⟩
      · have hpos : 0 < st.workers.countP WState.running := by
          have := h.wg_eq
          omega
        obtain ⟨i, w, hi, hr⟩ := exists_running hpos
        refine ⟨i + 1, ?_⟩
        cases w with
        | idle =>
          cases hb : c.buf with
          | nil => exact ⟨_, by simp [step, workerStep, hi, hj, hb, hc]; rfl⟩
          | cons key rest => exact ⟨_, by simp [step, workerStep, hi, hj, hb]; rfl⟩
        | got key =>
          cases hd : DownloadImage W st.log ⟨st.srcBucket, st.dstBucket⟩ key with
          | error err => exact ⟨_, by simp [step, workerStep, hi, hd]; rfl⟩
          | ok imgData => exact ⟨_, by simp [step, workerStep, hi, hd]; rfl⟩
        | downloaded key imgData =>
          cases ho : OptimizeImage W imgData with
          | error err => exact ⟨_, by simp [step, workerStep, hi, ho]; rfl⟩
          | ok data => exact ⟨_, by simp [step, workerStep, hi, ho]; rfl⟩
        | optimized key data => exact ⟨_, by simp [step, workerStep, hi]; rfl⟩
        | exited => simp [WState.running] at hr
    | returned r => exact absurd hmain (hm r)
    | panicked => exact absurd hmain h.not_panicked

theorem returns_within {Img : Type} {W : World Img} {keys : List String} (n : Nat) :
    ∀ st : State, Inv W keys st → st.measure ≤ n →
      ∃ ext : List Nat, ext.length ≤ n ∧ ∃ r, (exec W st ext).main = .returned r := by
  induction n with
  | zero =>
    intro st h hn
    by_cases hm : ∃ r, st.main = .returned r
    · exact ⟨[], by simp, by simpa [exec] using hm⟩
    · obtain ⟨t, st', hst⟩ := progress h (fun r hr => hm ⟨r, hr⟩)
      have := measure_step (step_sound W st st' t hst)
      omega
  | succ m ih =>
    intro st h hn
    by_cases hm : ∃ r, st.main = .returned r
    · exact ⟨[], by simp, by simpa [exec] using hm⟩
    · obtain ⟨t, st', hst⟩ := progress h (fun r hr => hm ⟨r, hr⟩)
      have hlt := measure_step (step_sound W st st' t hst)
      obtain ⟨ext, hlen, r, hr⟩ := ih st' (h.next (step_sound W st st' t hst)) (by omega)
      exact ⟨t :: ext, by simp; omega, r, by simpa [exec, hst] using hr⟩

/-! ## Iterations -/

theorem getElem?_mid {α : Type} (l1 l2 : List α) (a : α) :
    (l1 ++ a :: l2)[l1.length]? = some a := by
  induction l1 with
  | nil => simp
  | cons x xs ih => simpa using ih

theorem getElem?_mid_ne {α : Type} (l1 l2 : List α) (a b : α) (j : Nat) (h : j ≠ l1.length) :
    (l1 ++ a :: l2)[j]? = (l1 ++ b :: l2)[j]? := by
  induction l1 generalizing j with
  | nil =>
    cases j with
    | zero => simp at h
    | succ j => simp
  | cons x xs ih =>
    cases j with
    | zero => simp
    | succ j =>
      simp only [List.cons_append, List.getElem?_cons_succ]
      exact ih j (by simpa using h)

theorem iter_other (t : Nat) (e : Event) (l : List Event) (h : e.tid ≠ t) :
    iter t (e :: l) = iter t l := by
  simp [iter, h]

theorem Shapes.main_event {Img : Type} {W : World Img} {ws : List WState} {log : List Event}
    (h : Shapes W ws log) (a : Action) : Shapes W ws (⟨0, a⟩ :: log) := by
  intro i
  rw [iter_other _ _ _ (by simp)]
  exact h i

theorem Shapes.spawn {Img : Type} {W : World Img} {ws : List WState} {log : List Event}
    (h : Shapes W ws log) : Shapes W (ws ++ [.idle]) log := by
  intro i
  have hi := h i
  rcases Nat.lt_trichotomy i ws.length with hlt | heq | hgt
  · rw [List.getElem?_append_left hlt]
    exact hi
  · subst heq
    rw [getElem?_mid]
    rw [List.getElem?_eq_none (Nat.le_refl _)] at hi
    simp only at hi
    simp only [shapeFor, Finished]
    exact Or.inl hi
  · rw [List.getElem?_eq_none (by simp; omega)]
    rw [List.getElem?_eq_none (by omega)] at hi
    exact hi

theorem Shapes.worker {Img : Type} {W : World Img} {l1 l2 : List WState} {w w' : WState}
    {log : List Event} {a : Action} (h : Shapes W (l1 ++ w :: l2) log)
    (hstep : shapeFor W w (iter (l1.length + 1) log) →
      shapeFor W w' (iter (l1.length + 1) (⟨l1.length + 1, a⟩ :: log))) :
    Shapes W (l1 ++ w' :: l2) (⟨l1.length + 1, a⟩ :: log) := by
  intro i
  have hi := h i
  by_cases hil : i = l1.length
  · subst hil
    rw [getElem?_mid] at hi ⊢
    exact hstep hi
  · rw [getElem?_mid_ne l1 l2 w' w i hil, iter_other _ _ _ (by simpa using fun h => hil h.symm)]
    exact hi

theorem pres_shapes {Img : Type} {W : World Img} {st st' : State}
    (h : Shapes W st.workers st.log) (hs : Step W st st') : Shapes W st'.workers st'.log := by
  cases hs with
  | spawn i hm hi => exact (h.spawn).main_event _
  | startSend i hm hi => exact h
  | sendPanic key rest c hm hj hc => exact h
  | send key rest c hm hj hc hlen => exact h.main_event _
  | closeNil hm hj => exact h
  | closePanic c hm hj hc => exact h
  | close c hm hj hc => exact h.main_event _
  | ret hm hw => exact h.main_event _
  | recv l1 l2 c key rest hw hj hb =>
    rw [hw] at h
    exact h.worker (fun _ => by simp [shapeFor, iter])
  | exit l1 l2 c hw hj hb hc =>
    rw [hw] at h
    exact h.worker (fun hsh => by
      simp only [shapeFor] at hsh
      simpa [shapeFor, iter] using hsh)
  | dlErr l1 l2 key err hw hd =>
    rw [hw] at h
    exact h.worker (fun hsh => by
      simp only [shapeFor] at hsh
      simp [shapeFor, iter, Finished, hsh])
  | dlOk l1 l2 key imgData hw hd =>
    rw [hw] at h
    exact h.worker (fun hsh => by
      simp only [shapeFor] at hsh
      simp [shapeFor, iter, hsh])
  | optErr l1 l2 key imgData err hw ho =>
    rw [hw] at h
    exact h.worker (fun hsh => by
      simp only [shapeFor] at hsh
      simp only [shapeFor, iter, Finished, hsh, if_true]
      exact Or.inr (Or.inr (Or.inl ⟨key, imgData, err, ho, rfl⟩)))
  | optOk l1 l2 key imgData data hw ho =>
    rw [hw] at h
    exact h.worker (fun hsh => by
      simp only [shapeFor] at hsh
      simp [shapeFor, iter, hsh, ho])
  | upload l1 l2 key data hw =>
    rw [hw] at h
    exact h.worker (fun hsh => by
      simp only [shapeFor] at hsh
      obtain ⟨b, hb, hit⟩ := hsh
      simp only [shapeFor, iter, Finished, hit, if_true]
      exact Or.inr (Or.inr (Or.inr ⟨key, _, data, _, b, hb, rfl⟩)))

theorem Shapes.exec_shapes {Img : Type} {W : World Img} {st : State}
    (h : Shapes W st.workers st.log) (sched : List Nat) :
    Shapes W (exec W st sched).workers (exec W st sched).log := by
  induction sched generalizing st with
  | nil => exact h
  | cons t ts ih =>
    simp only [exec]
    cases hst : step W st t with
    | none => simpa using ih h
    | some st' => simpa using ih (pres_shapes h (step_sound W st st' t hst))

theorem Finished.stops {Img : Type} {W : World Img} {it : List Action} (h : Finished W it) :
    (∀ k err, Action.download k (.error err) ∈ it →
      ∀ a ∈ it, a.isOptimize = false ∧ a.isUpload = false) ∧
    (∀ k b err, Action.optimize k b (.error err) ∈ it → ∀ a ∈ it, a.isUpload = false) ∧
    (∀ k, Action.recv k ∈ it → ∀ a ∈ it, a.key = none ∨ a.key = some k) := by
  rcases h with h | ⟨k, err, h⟩ | ⟨k, b, err, _, h⟩ | ⟨k, bucket, d, r, b, _, h⟩ <;>
    subst h <;> simp [Action.isOptimize, Action.isUpload, Action.key]

theorem shapeFor.stops_iter {Img : Type} {W : World Img} {w : WState} {it : List Action}
    (h : shapeFor W w it) :
    (∀ k err, Action.download k (.error err) ∈ it →
      ∀ a ∈ it, a.isOptimize = false ∧ a.isUpload = false) ∧
    (∀ k b err, Action.optimize k b (.error err) ∈ it → ∀ a ∈ it, a.isUpload = false) ∧
    (∀ k, Action.recv k ∈ it → ∀ a ∈ it, a.key = none ∨ a.key = some k) := by
  cases w with
  | idle => exact Finished.stops h
  | got k =>
    simp only [shapeFor] at h
    subst h
    simp [Action.isOptimize, Action.isUpload, Action.key]
  | downloaded k b =>
    simp only [shapeFor] at h
    subst h
    simp [Action.isOptimize, Action.isUpload, Action.key]
  | optimized k d =>
    obtain ⟨b, _, h⟩ := h
    subst h
    simp [Action.isOptimize, Action.isUpload, Action.key]
  | exited =>
    obtain ⟨it', h, hf⟩ := h
    subst h
    have h1 := (Finished.stops hf).1
    have h2 := (Finished.stops hf).2.1
    have h3 := (Finished.stops hf).2.2
    refine ⟨?_, ?_, ?_⟩
    · intro k err hmem a ha
      simp only [List.mem_cons] at hmem ha
      rcases hmem with hmem | hmem
      · cases hmem
      · rcases ha with rfl | ha
        · simp [Action.isOptimize, Action.isUpload]
        · exact h1 k err hmem a ha
    · intro k b err hmem a ha
      simp only [List.mem_cons] at hmem ha
      rcases hmem with hmem | hmem
      · cases hmem
      · rcases ha with rfl | ha
        · simp [Action.isUpload]
        · exact h2 k b err hmem a ha
    · intro k hmem a ha
      simp only [List.mem_cons] at hmem ha
      rcases hmem with hmem | hmem
      · cases hmem
      · rcases ha with rfl | ha
        · simp [Action.key]
        · exact h3 k hmem a ha

theorem Shapes.iter_sound {Img : Type} {W : World Img} {ws : List WState} {log : List Event}
    (h : Shapes W ws log) (i : Nat) :
    (∀ k err, Action.download k (.error err) ∈ iter (i + 1) log →
      ∀ a ∈ iter (i + 1) log, a.isOptimize = false ∧ a.isUpload = false) ∧
    (∀ k b err, Action.optimize k b (.error err) ∈ iter (i + 1) log →
      ∀ a ∈ iter (i + 1) log, a.isUpload = false) ∧
    (∀ k, Action.recv k ∈ iter (i + 1) log →
      ∀ a ∈ iter (i + 1) log, a.key = none ∨ a.key = some k) := by
  have hi := h i
  cases hw : ws[i]? with
  | none =>
    rw [hw] at hi
    simp only at hi
    simp [hi]
  | some w =>
    rw [hw] at hi
    exact shapeFor.stops_iter hi

/-! ## The handler's first part -/

theorem exec_earlyReturn {Img : Type} (W : World Img) (src dst : String) (keys : List String)
    (res : Except String Unit) (log : List Event) (sched : List Nat) :
    exec W (earlyReturn src dst keys res log) sched = earlyReturn src dst keys res log := by
  induction sched with
  | nil => rfl
  | cons t ts ih =>
    have hstep : step W (earlyReturn src dst keys res log) t = none := by
      cases t <;> simp [step, mainStep, workerStep, earlyReturn]
    simp [exec, hstep, ih]

theorem handlerStart_fail_config {Img : Type} (W : World Img) (err : String)
    (h : W.loadConfig = .error err) :
    handlerStart W = earlyReturn (Getenv W "SOURCE_BUCKET") (Getenv W "DESTINATION_BUCKET") []
      (.error ("failed to initialize S3 client: " ++ err)) [⟨0, .loadConfig (.error err)⟩] := by
  simp [handlerStart, NewS3Client, h]

theorem handlerStart_fail_list {Img : Type} (W : World Img) (err : String)
    (hcfg : W.loadConfig = .ok ()) (h : ListImages W (clientOf W) = .error err) :
    handlerStart W = earlyReturn (Getenv W "SOURCE_BUCKET") (Getenv W "DESTINATION_BUCKET") []
      (.error ("failed to list images: " ++ err))
      [⟨0, .listImages (Getenv W "SOURCE_BUCKET") "uuid/" (.error err)⟩,
        ⟨0, .loadConfig (.ok ())⟩] := by
  simp only [clientOf] at h
  simp [handlerStart, NewS3Client, hcfg, h]

theorem handlerStart_empty {Img : Type} (W : World Img)
    (hcfg : W.loadConfig = .ok ()) (h : ListImages W (clientOf W) = .ok []) :
    handlerStart W = earlyReturn (Getenv W "SOURCE_BUCKET") (Getenv W "DESTINATION_BUCKET") []
      (.ok ())
      [⟨0, .listImages (Getenv W "SOURCE_BUCKET") "uuid/" (.ok [])⟩,
        ⟨0, .loadConfig (.ok ())⟩] := by
  simp only [clientOf] at h
  simp [handlerStart, NewS3Client, hcfg, h]

theorem handlerStart_run {Img : Type} (W : World Img) (keys : List String)
    (hcfg : W.loadConfig = .ok ()) (h : ListImages W (clientOf W) = .ok keys) (hne : keys ≠ []) :
    handlerStart W = runState (Getenv W "SOURCE_BUCKET") (Getenv W "DESTINATION_BUCKET") keys := by
  simp only [clientOf] at h
  simp [handlerStart, NewS3Client, hcfg, h, hne]

theorem exec_consts {Img : Type} (W : World Img) (st : State) (sched : List Nat) :
    (exec W st sched).srcBucket = st.srcBucket ∧ (exec W st sched).dstBucket = st.dstBucket ∧
      (exec W st sched).imageKeys = st.imageKeys := by
  induction sched generalizing st with
  | nil => exact ⟨rfl, rfl, rfl⟩
  | cons t ts ih =>
    simp only [exec]
    cases hst : step W st t with
    | none => simpa using ih st
    | some st' =>
      have hs := step_sound W st st' t hst
      have h' := ih st'
      have : st'.srcBucket = st.srcBucket ∧ st'.dstBucket = st.dstBucket ∧
          st'.imageKeys = st.imageKeys := by
        cases hs <;> exact ⟨rfl, rfl, rfl⟩
      simp only [Option.getD_some]
      rw [h'.1, h'.2.1, h'.2.2]
      exact this

theorem exec_log_mono {Img : Type} (W : World Img) (st : State) (sched : List Nat) (e : Event)
    (he : e ∈ st.log) : e ∈ (exec W st sched).log := by
  induction sched generalizing st with
  | nil => exact he
  | cons t ts ih =>
    simp only [exec]
    cases hst : step W st t with
    | none => simpa using ih st he
    | some st' =>
      have hs := step_sound W st st' t hst
      have : e ∈ st'.log := by
        cases hs <;> first | exact he | exact List.mem_cons_of_mem _ he
      simpa using ih st' this

/-- The facts every run over a non-empty listing satisfies. -/
theorem run_inv {Img : Type} (W : World Img) (keys : List String)
    (hcfg : W.loadConfig = .ok ()) (hlist : ListImages W (clientOf W) = .ok keys)
    (hne : keys ≠ []) (sched : List Nat) :
    Inv W keys (LambdaHandler W sched) ∧
      Shapes W (LambdaHandler W sched).workers (LambdaHandler W sched).log ∧
      (LambdaHandler W sched).dstBucket = Getenv W "DESTINATION_BUCKET" ∧
      (LambdaHandler W sched).srcBucket = Getenv W "SOURCE_BUCKET" := by
  have hstart := handlerStart_run W keys hcfg hlist hne
  have hc := exec_consts W (handlerStart W) sched
  refine ⟨?_, ?_, ?_, ?_⟩
  · simp only [LambdaHandler, hstart]
    exact (Inv.init W _ _ keys).exec_inv sched
  · simp only [LambdaHandler, hstart]
    refine Shapes.exec_shapes ?_ sched
    intro i
    simp [runState, iter]
  · simp only [LambdaHandler]
    rw [hc.2.1, hstart]
    rfl
  · simp only [LambdaHandler]
    rw [hc.1, hstart]
    rfl

/-- From any moment of a run over a non-empty listing, the handler can be brought to return,
within the number of steps the measure allows. -/
theorem run_returns {Img : Type} (W : World Img) (keys : List String)
    (hcfg : W.loadConfig = .ok ()) (hlist : ListImages W (clientOf W) = .ok keys)
    (hne : keys ≠ []) (sched : List Nat) :
    ∃ ext, (LambdaHandler W (sched ++ ext)).result = some (.ok ()) := by
  have hinv := (run_inv W keys hcfg hlist hne sched).1
  obtain ⟨ext, _, r, hr⟩ := returns_within (LambdaHandler W sched).measure _ hinv (Nat.le_refl _)
  refine ⟨ext, ?_⟩
  have hinv' := (run_inv W keys hcfg hlist hne (sched ++ ext)).1
  have heq : LambdaHandler W (sched ++ ext) = exec W (LambdaHandler W sched) ext := by
    simp [LambdaHandler, exec_append]
  rw [heq] at hinv' ⊢
  have := (hinv'.ret_ok r hr).1
  subst this
  simp [State.result, hr]

/-! ## Listing -/

theorem collectPage_eq (imageKeys : List String) (page : List S3Object) :
    collectPage imageKeys page
      = imageKeys ++ (page.filter (fun object => decide (object.size > 0))).map S3Object.key := by
  induction page generalizing imageKeys with
  | nil => simp [collectPage]
  | cons o os ih =>
    have ih' := ih (if o.size > 0 then imageKeys ++ [o.key] else imageKeys)
    simp only [collectPage, List.foldl_cons] at ih' ⊢
    rw [ih']
    by_cases ho : o.size > 0 <;> simp [ho, List.filter_cons]

theorem listLoop_ok (imageKeys : List String) (pages : List (List S3Object)) :
    listLoop imageKeys (pages.map Except.ok) = .ok (imageKeys ++ sizedKeys pages) := by
  induction pages generalizing imageKeys with
  | nil => simp [listLoop, sizedKeys]
  | cons p ps ih =>
    simp only [List.map_cons, listLoop, ih, collectPage_eq]
    simp [sizedKeys]

/-- C7: when every page is fetched successfully, `ListImages` returns exactly the
keys of the objects of positive size, page after page and in the order of each page:
a key is in the result if and only if some page holds an object of positive size
with that key. -/
theorem ListImages_all_pages {Img : Type} (W : World Img) (s : S3Client)
    (pages : List (List S3Object))
    (h : W.listPages s.srcBucket "uuid/" = pages.map Except.ok) :
    ListImages W s = .ok (sizedKeys pages) ∧
      ∀ k, k ∈ sizedKeys pages ↔ ∃ page ∈ pages, ∃ o ∈ page, 0 < o.size ∧ o.key = k := by
  constructor
  · simp [ListImages, h, listLoop_ok]
  · intro k
    simp only [sizedKeys, List.mem_flatten, List.mem_map, List.mem_filter, decide_eq_true_eq]
    constructor
    · rintro ⟨l, ⟨page, hp, rfl⟩, hk⟩
      simp only [List.mem_map, List.mem_filter, decide_eq_true_eq] at hk
      obtain ⟨o, ⟨ho, hs⟩, rfl⟩ := hk
      exact ⟨page, hp, o, ho, hs, rfl⟩
    · rintro ⟨page, hp, o, ho, hs, rfl⟩
      refine ⟨_, ⟨page, hp, rfl⟩, ?_⟩
      simp only [List.mem_map, List.mem_filter, decide_eq_true_eq]
      exact ⟨o, ⟨ho, hs⟩, rfl⟩

theorem ListImages_all_pages_witness :
    sampleWorld.listPages "src" "uuid/"
        = [[⟨"uuid/", 0⟩, ⟨"uuid/a.jpg", 5⟩], [⟨"uuid/b.jpg", 7⟩, ⟨"uuid/c.jpg", 9⟩]].map Except.ok ∧
      ListImages sampleWorld ⟨"src", ""⟩ = .ok ["uuid/a.jpg", "uuid/b.jpg", "uuid/c.jpg"] :=
  ⟨rfl, (ListImages_all_pages sampleWorld ⟨"src", ""⟩
    [[⟨"uuid/", 0⟩, ⟨"uuid/a.jpg", 5⟩], [⟨"uuid/b.jpg", 7⟩, ⟨"uuid/c.jpg", 9⟩]] rfl).1⟩

/-! ## Early returns -/

/-- C6: when the listing succeeds with no key, `LambdaHandler` has returned success
before any goroutine could move: the channel `jobs` was never made, no worker was
started, the wait group is untouched, and the history holds the configuration load,
the listing and the return only. -/
theorem empty_listing_returns {Img : Type} (W : World Img)
    (hcfg : W.loadConfig = .ok ()) (hlist : ListImages W (clientOf W) = .ok [])
    (sched : List Nat) :
    (LambdaHandler W sched).result = some (.ok ()) ∧
      (LambdaHandler W sched).jobs = none ∧
      (LambdaHandler W sched).workers = [] ∧
      (LambdaHandler W sched).wg = 0 ∧
      (LambdaHandler W sched).log =
        [⟨0, .ret (.ok ())⟩, ⟨0, .listImages (Getenv W "SOURCE_BUCKET") "uuid/" (.ok [])⟩,
          ⟨0, .loadConfig (.ok ())⟩] := by
  simp only [LambdaHandler, handlerStart_empty W hcfg hlist, exec_earlyReturn]
  simp [earlyReturn, State.result]

theorem empty_listing_returns_witness :
    emptyWorld.loadConfig = .ok () ∧ ListImages emptyWorld (clientOf emptyWorld) = .ok [] ∧
      (LambdaHandler emptyWorld [1, 0, 2, 0]).result = some (.ok ()) ∧
      (LambdaHandler emptyWorld [1, 0, 2, 0]).workers = [] :=
  ⟨rfl, rfl, (empty_listing_returns emptyWorld rfl rfl [1, 0, 2, 0]).1,
    (empty_listing_returns emptyWorld rfl rfl [1, 0, 2, 0]).2.2.1⟩

/-- C5: the value `LambdaHandler` returns is an error exactly when `NewS3Client` or
`ListImages` fails; in that case it has returned before any goroutine moves and no
download, optimisation or upload is in the history; and in every case the run can be
brought to its return from any moment, whatever the items did. -/
theorem fatal_iff_setup_fails {Img : Type} (W : World Img) :
    (∀ sched r, (LambdaHandler W sched).result = some r →
      ((∃ err, r = .error err) ↔
        ((∃ err, NewS3Client W (Getenv W "SOURCE_BUCKET") (Getenv W "DESTINATION_BUCKET")
            = .error err) ∨
          (∃ err, ListImages W (clientOf W) = .error err)))) ∧
    (((∃ err, NewS3Client W (Getenv W "SOURCE_BUCKET") (Getenv W "DESTINATION_BUCKET")
          = .error err) ∨
        (∃ err, ListImages W (clientOf W) = .error err)) →
      ∀ sched, (∃ err, (LambdaHandler W sched).result = some (.error err)) ∧
        downloads (LambdaHandler W sched).log = [] ∧
        optimizes (LambdaHandler W sched).log = [] ∧
        uploads (LambdaHandler W sched).log = []) ∧
    (∀ sched, ∃ ext r, (LambdaHandler W (sched ++ ext)).result = some r) := by
  cases hcfg : W.loadConfig with
  | error e =>
    have hL : ∀ sched, LambdaHandler W sched = handlerStart W := fun sched => by
      simp only [LambdaHandler, handlerStart_fail_config W e hcfg, exec_earlyReturn]
    rw [handlerStart_fail_config W e hcfg] at hL
    refine ⟨?_, ?_, ?_⟩
    · intro sched r hr
      rw [hL] at hr
      simp only [earlyReturn, State.result, Option.some.injEq] at hr
      subst hr
      simp [NewS3Client, hcfg]
    · intro _ sched
      rw [hL]
      simp [earlyReturn, State.result, downloads, optimizes, uploads, gather]
    · intro sched
      refine ⟨[], ?_⟩
      rw [hL]
      exact ⟨_, rfl⟩
  | ok u =>
    cases u
    cases hlist : ListImages W (clientOf W) with
    | error e =>
      have hL : ∀ sched, LambdaHandler W sched = handlerStart W := fun sched => by
        simp only [LambdaHandler, handlerStart_fail_list W e hcfg hlist, exec_earlyReturn]
      rw [handlerStart_fail_list W e hcfg hlist] at hL
      refine ⟨?_, ?_, ?_⟩
      · intro sched r hr
        rw [hL] at hr
        simp only [earlyReturn, State.result, Option.some.injEq] at hr
        subst hr
        simp
      · intro _ sched
        rw [hL]
        simp [earlyReturn, State.result, downloads, optimizes, uploads, gather]
      · intro sched
        refine ⟨[], ?_⟩
        rw [hL]
        exact ⟨_, rfl⟩
    | ok keys =>
      have hnofatal : ¬ ((∃ err, NewS3Client W (Getenv W "SOURCE_BUCKET")
            (Getenv W "DESTINATION_BUCKET") = .error err) ∨
          (∃ err, (Except.ok keys : Except String (List String)) = .error err)) := by
        simp [NewS3Client, hcfg]
      by_cases hne : keys = []
      · subst hne
        have hL : ∀ sched, (LambdaHandler W sched).result = some (.ok ()) := fun sched => by
          simp only [LambdaHandler, handlerStart_empty W hcfg hlist, exec_earlyReturn]
          rfl
        refine ⟨?_, ?_, ?_⟩
        · intro sched r hr
          rw [hL sched, Option.some.injEq] at hr
          subst hr
          simpa using hnofatal
        · intro hf
          exact absurd hf hnofatal
        · intro sched
          exact ⟨[], _, hL _⟩
      · refine ⟨?_, ?_, ?_⟩
        · intro sched r hr
          have hinv := (run_inv W keys hcfg hlist hne sched).1
          have hmain : (LambdaHandler W sched).main = .returned r := by
            simp only [State.result] at hr
            split at hr
            · rename_i res hm
              cases hr
              exact hm
            · cases hr
          have := (hinv.ret_ok r hmain).1
          subst this
          simpa using hnofatal
        · intro hf
          exact absurd hf hnofatal
        · intro sched
          obtain ⟨ext, hext⟩ := run_returns W keys hcfg hlist hne sched
          exact ⟨ext, _, hext⟩

theorem fatal_iff_setup_fails_witness :
    (LambdaHandler brokenWorld [0, 1]).result
        = some (.error "failed to initialize S3 client: no credentials") ∧
      (∃ err, (LambdaHandler brokenWorld [0, 1]).result = some (.error err)) ∧
      (LambdaHandler sampleWorld sampleSchedule).result = some (.ok ()) :=
  ⟨rfl, ((fatal_iff_setup_fails brokenWorld).2.1 (Or.inl ⟨_, rfl⟩) [0, 1]).1, rfl⟩

/-! ## Settings -/

/-- C8 (as the code has it): `LambdaHandler` does not check the two settings. A
variable that is not set reads as the empty string; the handler fails before the
listing exactly when `NewS3Client` cannot load the AWS configuration, and then the
history holds that failure and the return only; and whenever the configuration
loads, `ListImages` is called on the bucket named by `SOURCE_BUCKET`, set or not. -/
theorem settings_not_checked {Img : Type} (W : World Img) (sched : List Nat) :
    (∀ name, W.getenv name = none → Getenv W name = "") ∧
    (∀ err, W.loadConfig = .error err →
      (LambdaHandler W sched).result
          = some (.error ("failed to initialize S3 client: " ++ err)) ∧
        (LambdaHandler W sched).log
          = [⟨0, .ret (.error ("failed to initialize S3 client: " ++ err))⟩,
              ⟨0, .loadConfig (.error err)⟩]) ∧
    (W.loadConfig = .ok () →
      (⟨0, .listImages (Getenv W "SOURCE_BUCKET") "uuid/" (ListImages W (clientOf W))⟩ : Event)
        ∈ (LambdaHandler W sched).log) := by
  refine ⟨?_, ?_, ?_⟩
  · intro name h
    simp [Getenv, h]
  · intro err h
    simp only [LambdaHandler, handlerStart_fail_config W err h, exec_earlyReturn]
    exact ⟨rfl, rfl⟩
  · intro hcfg
    cases hlist : ListImages W (clientOf W) with
    | error e =>
      simp only [LambdaHandler, handlerStart_fail_list W e hcfg hlist, exec_earlyReturn]
      simp [earlyReturn]
    | ok keys =>
      by_cases hne : keys = []
      · subst hne
        simp only [LambdaHandler, handlerStart_empty W hcfg hlist, exec_earlyReturn]
        simp [earlyReturn]
      · simp only [LambdaHandler, handlerStart_run W keys hcfg hlist hne]
        apply exec_log_mono
        simp [runState]

theorem settings_not_checked_witness :
    sampleWorld.getenv "DESTINATION_BUCKET" = none ∧
      Getenv sampleWorld "DESTINATION_BUCKET" = "" ∧
      (⟨0, .listImages "src" "uuid/" (.ok ["uuid/a.jpg", "uuid/b.jpg", "uuid/c.jpg"])⟩ : Event)
        ∈ (LambdaHandler sampleWorld sampleSchedule).log :=
  ⟨rfl, (settings_not_checked sampleWorld sampleSchedule).1 "DESTINATION_BUCKET" rfl,
    (settings_not_checked sampleWorld sampleSchedule).2.2 rfl⟩

/-- C8 fails as stated: with `DESTINATION_BUCKET` not set, `LambdaHandler` lists the
source, downloads, attempts an upload to the bucket with the empty name, and returns
success. -/
theorem unset_destination_still_runs :
    sampleWorld.getenv "DESTINATION_BUCKET" = none ∧
      (LambdaHandler sampleWorld sampleSchedule).result = some (.ok ()) ∧
      (⟨0, .listImages "src" "uuid/" (.ok ["uuid/a.jpg", "uuid/b.jpg", "uuid/c.jpg"])⟩ : Event)
        ∈ (LambdaHandler sampleWorld sampleSchedule).log ∧
      (downloads (LambdaHandler sampleWorld sampleSchedule).log).length = 3 ∧
      uploads (LambdaHandler sampleWorld sampleSchedule).log
        = [⟨"uuid/b.jpg", "", "optimized/uuid/b.jpg", [2]⟩] := by
  decide

/-! ## The end of a run -/

theorem result_main {st : State} {r : Except String Unit} (h : st.result = some r) :
    st.main = .returned r := by
  simp only [State.result] at h
  split at h
  · rename_i res hm
    cases h
    exact hm
  · cases h

theorem Inv.at_return {Img : Type} {W : World Img} {keys : List String} {st : State}
    (h : Inv W keys st) {r : Except String Unit} (hr : st.main = .returned r) :
    r = .ok () ∧ st.workers = [.exited, .exited, .exited] ∧ st.wg = 0 ∧
      st.closed = true ∧ st.buf = [] ∧ st.unsent = [] := by
  have hall := h.all_exited hr
  have hlen := h.nworkers
  simp only [hr, MainPc.started, numWorkers] at hlen
  have hws : st.workers = [.exited, .exited, .exited] := by
    match hw : st.workers, hlen with
    | [a, b, c], _ =>
      rw [hw] at hall
      simp [hall a (by simp), hall b (by simp), hall c (by simp)]
  have hd := h.drained (by rw [hws]; simp)
  exact ⟨(h.ret_ok r hr).1, hws, (h.ret_ok r hr).2, hd.1, hd.2, by simp [State.unsent, hr]⟩

theorem Inv.outcomes_perm {Img : Type} {W : World Img} {keys : List String} {st : State}
    (h : Inv W keys st) {r : Except String Unit} (hr : st.main = .returned r) :
    (recvd st.log).reverse = keys ∧ (outcomes st.log).Perm keys ∧
      (downloads st.log).Perm keys := by
  obtain ⟨_, hws, _, _, hbuf, huns⟩ := h.at_return hr
  have hc := h.conserve
  rw [hbuf, huns] at hc
  simp only [List.append_nil] at hc
  have hrev : (recvd st.log).Perm keys := by
    rw [← hc]
    exact (List.reverse_perm _).symm
  refine ⟨hc, ?_, ?_⟩
  · refine List.Perm.trans ?_ hrev
    rw [List.perm_iff_count]
    intro k
    have := h.outcome_count k
    simpa [hws, gather, WState.held] using this
  · refine List.Perm.trans ?_ hrev
    rw [List.perm_iff_count]
    intro k
    have := h.dl_count k
    simpa [hws, gather, WState.fresh] using this

/-- C1: in every run over a non-empty listing, at every moment the keys received
from `jobs` are, in order, a leading part of the listing and no key has more outcomes
than occurrences in the listing; when `LambdaHandler` has returned, the keys received
are exactly the listing, each once, and the terminal outcomes (failed download,
failed optimisation, upload) are the listing up to order, so their number is the
number of keys; and from every moment the run can be brought to its return. -/
theorem each_key_processed_once {Img : Type} (W : World Img) (keys : List String)
    (hcfg : W.loadConfig = .ok ()) (hlist : ListImages W (clientOf W) = .ok keys)
    (hne : keys ≠ []) :
    (∀ sched, (∃ rest, (recvd (LambdaHandler W sched).log).reverse ++ rest = keys) ∧
      ∀ k, (outcomes (LambdaHandler W sched).log).count k ≤ keys.count k) ∧
    (∀ sched r, (LambdaHandler W sched).result = some r →
      (recvd (LambdaHandler W sched).log).reverse = keys ∧
        (outcomes (LambdaHandler W sched).log).Perm keys ∧
        (outcomes (LambdaHandler W sched).log).length = keys.length) ∧
    (∀ sched, ∃ ext, (LambdaHandler W (sched ++ ext)).result = some (.ok ())) := by
  refine ⟨?_, ?_, run_returns W keys hcfg hlist hne⟩
  · intro sched
    have h := (run_inv W keys hcfg hlist hne sched).1
    refine ⟨⟨_, by simpa using h.conserve⟩, ?_⟩
    intro k
    have h1 := h.outcome_count k
    have h2 := congrArg (List.count k) h.conserve
    simp only [List.count_append, List.count_reverse] at h2
    omega
  · intro sched r hr
    have h := (run_inv W keys hcfg hlist hne sched).1
    have hp := h.outcomes_perm (result_main hr)
    exact ⟨hp.1, hp.2.1, hp.2.1.length_eq⟩

set_option maxRecDepth 100000 in
theorem each_key_processed_once_witness :
    tenWorld.loadConfig = .ok () ∧ ListImages tenWorld (clientOf tenWorld) = .ok tenKeys ∧
      tenKeys ≠ [] ∧
      (LambdaHandler tenWorld tenSchedule).result = some (.ok ()) ∧
      (recvd (LambdaHandler tenWorld tenSchedule).log).reverse = tenKeys :=
  ⟨rfl, rfl, by decide, rfl,
    ((each_key_processed_once tenWorld tenKeys rfl rfl (by decide)).2.1 tenSchedule (.ok ())
      rfl).1⟩

/-- C9: in every run over a non-empty listing, when `LambdaHandler` has returned, it
returned success, all three workers have left their loop (which they do only on the
closed and empty channel) and run `wg.Done()`, the wait group is at zero, the channel
is closed and empty, and the return is the last event: before it the history holds
three `wg.Done()` and one terminal outcome for every key of the listing. The wait is
not a deadlock: as long as the handler has not returned some goroutine can move, every
move lowers the measure of the state, and from every moment the run can be brought to
that return. -/
theorem returns_after_all_workers {Img : Type} (W : World Img) (keys : List String)
    (hcfg : W.loadConfig = .ok ()) (hlist : ListImages W (clientOf W) = .ok keys)
    (hne : keys ≠ []) :
    (∀ sched r, (LambdaHandler W sched).result = some r →
      r = .ok () ∧
        (LambdaHandler W sched).workers = [.exited, .exited, .exited] ∧
        (LambdaHandler W sched).wg = 0 ∧
        (LambdaHandler W sched).closed = true ∧
        (LambdaHandler W sched).buf = [] ∧
        ∃ l, (LambdaHandler W sched).log = ⟨0, .ret (.ok ())⟩ :: l ∧
          (dones l).length = numWorkers ∧ (outcomes l).Perm keys) ∧
    (∀ sched, (LambdaHandler W sched).result = none →
      ∃ t st', step W (LambdaHandler W sched) t = some st') ∧
    (∀ sched t st', step W (LambdaHandler W sched) t = some st' →
      st'.measure < (LambdaHandler W sched).measure) ∧
    (∀ sched, ∃ ext, (LambdaHandler W (sched ++ ext)).result = some (.ok ())) := by
  refine ⟨?_, ?_, ?_, run_returns W keys hcfg hlist hne⟩
  rotate_left
  · intro sched hnone
    refine progress (run_inv W keys hcfg hlist hne sched).1 ?_
    intro r hr
    simp [State.result, hr] at hnone
  · intro sched t st' hst
    exact measure_step (step_sound W _ st' t hst)
  intro sched r hr
  have h := (run_inv W keys hcfg hlist hne sched).1
  have hm := result_main hr
  obtain ⟨hok, hws, hwg, hcl, hbuf, _⟩ := h.at_return hm
  subst hok
  obtain ⟨l, hl⟩ := h.ret_head _ hm
  have hp := (h.outcomes_perm hm).2.1
  have hd := h.done_count
  rw [hl] at hp
  rw [hl, hws] at hd
  refine ⟨rfl, hws, hwg, hcl, hbuf, l, hl, ?_, ?_⟩
  · simpa [dones, gather, WState.running, numWorkers] using hd
  · simpa [outcomes, gather, outcomeKey] using hp

set_option maxRecDepth 100000 in
theorem returns_after_all_workers_witness :
    tenWorld.loadConfig = .ok () ∧ ListImages tenWorld (clientOf tenWorld) = .ok tenKeys ∧
      tenKeys ≠ [] ∧
      (LambdaHandler tenWorld tenSchedule).result = some (.ok ()) ∧
      (LambdaHandler tenWorld tenSchedule).workers = [.exited, .exited, .exited] :=
  ⟨rfl, rfl, by decide, rfl,
    ((returns_after_all_workers tenWorld tenKeys rfl rfl (by decide)).1 tenSchedule (.ok ())
      rfl).2.1⟩

/-- C10: in every run over a non-empty listing, at every moment the channel `jobs`
has capacity the number of listed keys and holds at most that many; whenever the
handler is about to send a key the channel is open and not full, so the send goes
through at once; the keys sent so far followed by those still to send are the listing
in order; the operations on the channel are those sends followed, once it is closed,
by one `close`; and once it is closed every key of the listing has been sent. -/
theorem queue_never_full {Img : Type} (W : World Img) (keys : List String)
    (hcfg : W.loadConfig = .ok ()) (hlist : ListImages W (clientOf W) = .ok keys)
    (hne : keys ≠ []) (sched : List Nat) :
    (LambdaHandler W sched).jobs
        = some ⟨(LambdaHandler W sched).buf, keys.length, (LambdaHandler W sched).closed⟩ ∧
      (LambdaHandler W sched).buf.length ≤ keys.length ∧
      (∀ key rest, (LambdaHandler W sched).main = .sending (key :: rest) →
        (LambdaHandler W sched).closed = false ∧
          (LambdaHandler W sched).buf.length < keys.length ∧
          mainStep (LambdaHandler W sched) = some { LambdaHandler W sched with
            jobs := some ⟨(LambdaHandler W sched).buf ++ [key], keys.length, false⟩
            main := .sending rest
            log := ⟨0, .send key⟩ :: (LambdaHandler W sched).log }) ∧
      (sent (LambdaHandler W sched).log).reverse ++ (LambdaHandler W sched).unsent = keys ∧
      (chanOps (LambdaHandler W sched).log).reverse
        = (sent (LambdaHandler W sched).log).reverse.map Action.send
          ++ (if (LambdaHandler W sched).closed then [Action.close] else []) ∧
      ((LambdaHandler W sched).closed = true →
        (sent (LambdaHandler W sched).log).reverse = keys) := by
  have h := (run_inv W keys hcfg hlist hne sched).1
  generalize LambdaHandler W sched = st at h ⊢
  have h2 := h.jobs_some
  have h3 := h.cap_eq
  have h4 := congrArg List.length h.conserve
  have h6 := h.closed_iff
  have h5 := h.sent_ok
  cases hj : st.jobs with
  | none => exact absurd hj h2
  | some c =>
    simp only [State.buf, State.cap, State.closed, hj] at h3 h4 h6 ⊢
    simp only [List.length_append, List.length_reverse] at h4
    refine ⟨?_, by omega, ?_, h5, ?_, ?_⟩
    · cases c
      simp only at h3
      simp [h3]
    · intro key rest hm
      have hc : c.closed = false := by simpa [hm, MainPc.pastClose] using h6
      have hlen : c.buf.length < keys.length := by
        simp only [State.unsent, hm, List.length_cons] at h4
        omega
      refine ⟨hc, hlen, ?_⟩
      simp [mainStep, hm, hj, hc, h3, hlen]
    · have := congrArg List.reverse h.ops_ok
      simp only [State.closed, hj] at this
      rw [this]
      cases c.closed <;> simp
    · intro hc
      rw [hc] at h6
      have : st.unsent = [] := by
        simp only [State.unsent]
        cases hm : st.main <;> simp_all [MainPc.pastClose]
      simpa [this] using h5

theorem queue_never_full_witness :
    tenWorld.loadConfig = .ok () ∧ ListImages tenWorld (clientOf tenWorld) = .ok tenKeys ∧
      tenKeys ≠ [] ∧
      (LambdaHandler tenWorld (List.replicate 9 0)).main
        = .sending ["uuid/5", "uuid/6", "uuid/7", "uuid/8", "uuid/9"] ∧
      (LambdaHandler tenWorld (List.replicate 9 0)).buf.length < tenKeys.length :=
  ⟨rfl, rfl, by decide, by decide,
    ((queue_never_full tenWorld tenKeys rfl rfl (by decide) (List.replicate 9 0)).2.2.1
      "uuid/5" ["uuid/6", "uuid/7", "uuid/8", "uuid/9"] (by decide)).2.1⟩

/-! ## Stages of one key -/

theorem handler_shapes {Img : Type} (W : World Img) (sched : List Nat) :
    Shapes W (LambdaHandler W sched).workers (LambdaHandler W sched).log := by
  cases hcfg : W.loadConfig with
  | error e =>
    simp only [LambdaHandler, handlerStart_fail_config W e hcfg, exec_earlyReturn]
    intro i
    simp [earlyReturn, iter]
  | ok u =>
    cases u
    cases hlist : ListImages W (clientOf W) with
    | error e =>
      simp only [LambdaHandler, handlerStart_fail_list W e hcfg hlist, exec_earlyReturn]
      intro i
      simp [earlyReturn, iter]
    | ok keys =>
      by_cases hne : keys = []
      · subst hne
        simp only [LambdaHandler, handlerStart_empty W hcfg hlist, exec_earlyReturn]
        intro i
        simp [earlyReturn, iter]
      · exact (run_inv W keys hcfg hlist hne sched).2.1

/-- C2: at every moment of every run, in the current iteration of every worker (its
actions since it last received a key): if the download failed, the iteration holds
no call of `OptimizeImage` and no call of `UploadImage`; if the optimisation failed,
it holds no call of `UploadImage`; and every call in it is for the key received. -/
theorem failed_stage_ends_iteration {Img : Type} (W : World Img) (sched : List Nat) (i : Nat) :
    (∀ k err, Action.download k (.error err) ∈ iter (i + 1) (LambdaHandler W sched).log →
      ∀ a ∈ iter (i + 1) (LambdaHandler W sched).log,
        a.isOptimize = false ∧ a.isUpload = false) ∧
    (∀ k b err, Action.optimize k b (.error err) ∈ iter (i + 1) (LambdaHandler W sched).log →
      ∀ a ∈ iter (i + 1) (LambdaHandler W sched).log, a.isUpload = false) ∧
    (∀ k, Action.recv k ∈ iter (i + 1) (LambdaHandler W sched).log →
      ∀ a ∈ iter (i + 1) (LambdaHandler W sched).log, a.key = none ∨ a.key = some k) :=
  (handler_shapes W sched).iter_sound i

theorem failed_stage_ends_iteration_witness :
    iter 1 (LambdaHandler sampleWorld sampleSchedule).log
        = [.done, .download "uuid/a.jpg" (.error "failed to download uuid/a.jpg: timeout"),
            .recv "uuid/a.jpg"] ∧
      iter 3 (LambdaHandler sampleWorld sampleSchedule).log
        = [.done, .optimize "uuid/c.jpg" [3] (.error "failed to decode image: bad image"),
            .download "uuid/c.jpg" (.ok [3]), .recv "uuid/c.jpg"] ∧
      (∀ a ∈ iter 1 (LambdaHandler sampleWorld sampleSchedule).log,
        a.isOptimize = false ∧ a.isUpload = false) ∧
      (∀ a ∈ iter 3 (LambdaHandler sampleWorld sampleSchedule).log, a.isUpload = false) :=
  ⟨by decide, by decide,
    (failed_stage_ends_iteration sampleWorld sampleSchedule 0).1 "uuid/a.jpg"
      "failed to download uuid/a.jpg: timeout" (by decide),
    (failed_stage_ends_iteration sampleWorld sampleSchedule 2).2.1 "uuid/c.jpg" [3]
      "failed to decode image: bad image" (by decide)⟩

/-! ## Uploads -/

theorem mem_gather {α β : Type} (f : α → List β) (l : List α) (b : β) :
    b ∈ gather f l ↔ ∃ a ∈ l, b ∈ f a := by
  induction l with
  | nil => simp [gather]
  | cons x xs ih => simp [gather, ih]

theorem mem_expected {Img : Type} (W : World Img) (dst : String) (log : List Event) (x : Put)
    (h : x ∈ expected W dst log) : x.bucket = dst ∧ x.dstKey = "optimized/" ++ x.key := by
  obtain ⟨e, _, hx⟩ := (mem_gather _ _ _).mp h
  split at hx
  · rename_i key imgData _
    simp only [putFor] at hx
    split at hx
    · simp only [List.mem_singleton] at hx
      subst hx
      exact ⟨rfl, rfl⟩
    · cases hx
  · cases hx

/-- C4: in every run, every upload in the history (the `PutObject` request sent by the
call of `UploadImage` made while processing the key `k`) has the destination key
`"optimized/" ++ k` and goes to the bucket named by `DESTINATION_BUCKET`; and `k` is
one of the keys `ListImages` returned. -/
theorem upload_key_derived {Img : Type} (W : World Img) (sched : List Nat) (e : Event)
    (he : e ∈ (LambdaHandler W sched).log) (k bucket dstKey : String) (data : Bytes)
    (r : Except String Unit) (hact : e.act = .upload k bucket dstKey data r) :
    dstKey = "optimized/" ++ k ∧ bucket = Getenv W "DESTINATION_BUCKET" ∧
      ∃ keys, ListImages W (clientOf W) = .ok keys ∧ k ∈ keys := by
  cases hcfg : W.loadConfig with
  | error err =>
    simp only [LambdaHandler, handlerStart_fail_config W err hcfg, exec_earlyReturn] at he
    simp only [earlyReturn, List.mem_cons, List.mem_singleton, List.not_mem_nil, or_false] at he
    rcases he with rfl | rfl <;> cases hact
  | ok u =>
    cases u
    cases hlist : ListImages W (clientOf W) with
    | error err =>
      simp only [LambdaHandler, handlerStart_fail_list W err hcfg hlist, exec_earlyReturn] at he
      simp only [earlyReturn, List.mem_cons, List.mem_singleton, List.not_mem_nil,
        or_false] at he
      rcases he with rfl | rfl | rfl <;> cases hact
    | ok keys =>
      by_cases hne : keys = []
      · subst hne
        simp only [LambdaHandler, handlerStart_empty W hcfg hlist, exec_earlyReturn] at he
        simp only [earlyReturn, List.mem_cons, List.mem_singleton, List.not_mem_nil,
          or_false] at he
        rcases he with rfl | rfl | rfl <;> cases hact
      · obtain ⟨hinv, _, hdst, _⟩ := run_inv W keys hcfg hlist hne sched
        have hup : (⟨k, bucket, dstKey, data⟩ : Put) ∈ uploads (LambdaHandler W sched).log :=
          (mem_gather _ _ _).mpr ⟨e, he, by simp [hact]⟩
        have hout : k ∈ outcomes (LambdaHandler W sched).log :=
          (mem_gather _ _ _).mpr ⟨e, he, by simp [hact, outcomeKey]⟩
        have hexp : (⟨k, bucket, dstKey, data⟩ : Put)
            ∈ expected W (LambdaHandler W sched).dstBucket (LambdaHandler W sched).log := by
          have h1 := hinv.up_count ⟨k, bucket, dstKey, data⟩
          have h2 := List.count_pos_iff.mpr hup
          exact List.count_pos_iff.mp (by omega)
        have hform := mem_expected W _ _ _ hexp
        have hk : k ∈ keys := by
          have h1 := hinv.outcome_count k
          have h2 := List.count_pos_iff.mpr hout
          have h3 : k ∈ recvd (LambdaHandler W sched).log := List.count_pos_iff.mp (by omega)
          have h4 := hinv.conserve
          rw [← h4]
          simp [h3]
        exact ⟨hform.2, hform.1.trans hdst, keys, rfl, hk⟩

theorem upload_key_derived_witness :
    (⟨2, .upload "uuid/b.jpg" "" "optimized/uuid/b.jpg" [2] (.error "no bucket")⟩ : Event)
        ∈ (LambdaHandler sampleWorld sampleSchedule).log ∧
      "optimized/uuid/b.jpg" = "optimized/" ++ "uuid/b.jpg" :=
  ⟨by decide,
    (upload_key_derived sampleWorld sampleSchedule
      ⟨2, .upload "uuid/b.jpg" "" "optimized/uuid/b.jpg" [2] (.error "no bucket")⟩
      (by decide) "uuid/b.jpg" "" "optimized/uuid/b.jpg" [2] (.error "no bucket") rfl).1⟩

theorem pres_answered {Img : Type} {W : World Img} {st st' : State}
    (h : Answered W ⟨st.srcBucket, st.dstBucket⟩ st.log) (hs : Step W st st') :
    Answered W ⟨st'.srcBucket, st'.dstBucket⟩ st'.log := by
  cases hs with
  | dlErr l1 l2 key err hw hd => exact ⟨hd.symm, h⟩
  | dlOk l1 l2 key imgData hw hd => exact ⟨hd.symm, h⟩
  | upload l1 l2 key data hw => exact ⟨⟨rfl, rfl⟩, h⟩
  | _ => first | exact h | exact ⟨trivial, h⟩

theorem Answered.exec_answered {Img : Type} {W : World Img} {st : State}
    (h : Answered W ⟨st.srcBucket, st.dstBucket⟩ st.log) (sched : List Nat) :
    Answered W ⟨(exec W st sched).srcBucket, (exec W st sched).dstBucket⟩
      (exec W st sched).log := by
  induction sched generalizing st with
  | nil => exact h
  | cons t ts ih =>
    simp only [exec]
    cases hst : step W st t with
    | none => simpa using ih h
    | some st' => simpa using ih (pres_answered h (step_sound W st st' t hst))

theorem Answered.at_event {Img : Type} {W : World Img} {s : S3Client}
    (pre post : List Event) (e : Event) (h : Answered W s (pre ++ e :: post)) :
    (∀ k bucket dk d res, e.act = .upload k bucket dk d res →
      bucket = s.dstBucket ∧ res = W.putObject post bucket dk d) ∧
    (∀ k res, e.act = .download k res → res = DownloadImage W post s k) := by
  induction pre with
  | nil =>
    obtain ⟨he, _⟩ := h
    constructor
    · intro k bucket dk d res hact
      rw [hact] at he
      exact he
    · intro k res hact
      rw [hact] at he
      exact he
  | cons x xs ih => exact ih h.2

theorem download_ok_iff {Img : Type} (W : World Img) (hist : List Event) (s : S3Client)
    (k : String) (b : Bytes) :
    DownloadImage W hist s k = .ok b ↔ W.getObject hist s.srcBucket k = .ok (.ok b) := by
  simp only [DownloadImage]
  cases W.getObject hist s.srcBucket k with
  | error err => simp
  | ok body =>
    cases body with
    | error err => simp
    | ok buf => simp

theorem count_putFor {Img : Type} (W : World Img) (dst k key : String) (b out : Bytes) :
    (putFor W dst key b).count ⟨k, dst, "optimized/" ++ k, out⟩
      = if key = k ∧ OptimizeImage W b = .ok out then 1 else 0 := by
  simp only [putFor]
  cases hO : OptimizeImage W b with
  | error err => simp
  | ok d =>
    by_cases hk : key = k
    · subst hk
      by_cases hd : d = out
      · subst hd
        simp
      · have hne : ¬ ((⟨key, dst, "optimized/" ++ key, d⟩ : Put)
            = ⟨key, dst, "optimized/" ++ key, out⟩) := by
          intro h
          cases h
          exact hd rfl
        simp [List.count_cons, hne, hd]
    · have hne : ¬ ((⟨key, dst, "optimized/" ++ key, d⟩ : Put)
          = ⟨k, dst, "optimized/" ++ k, out⟩) := by
        intro h
        cases h
        exact hk rfl
      simp [List.count_cons, hne, hk]

theorem count_expected {Img : Type} (W : World Img) (dst k : String) (out : Bytes)
    (log : List Event) :
    (expected W dst log).count ⟨k, dst, "optimized/" ++ k, out⟩ = goodDownloads W k out log := by
  induction log with
  | nil => simp [expected, goodDownloads, gather]
  | cons e l ih =>
    obtain ⟨tid, act⟩ := e
    cases act with
    | download key res =>
      cases res with
      | error err => simpa [expected, goodDownloads, gather] using ih
      | ok b =>
        simp only [expected, goodDownloads] at ih
        simp only [expected, goodDownloads, gather, List.count_append, List.length_append, ih,
          count_putFor]
        congr 1
        split <;> rfl
    | _ => simpa [expected, goodDownloads, gather] using ih

theorem filter_putFor_le {Img : Type} (W : World Img) (dst k key : String) (b : Bytes) :
    ((putFor W dst key b).filter (fun p => decide (p.key = k))).length ≤ List.count k [key] := by
  simp only [putFor]
  cases OptimizeImage W b with
  | error err => simp
  | ok d => by_cases hk : key = k <;> simp [hk]

theorem expected_filter_le {Img : Type} (W : World Img) (dst k : String) (log : List Event) :
    ((expected W dst log).filter (fun p => decide (p.key = k))).length
      ≤ (downloads log).count k := by
  induction log with
  | nil => simp [expected, downloads, gather]
  | cons e l ih =>
    obtain ⟨tid, act⟩ := e
    cases act with
    | download key res =>
      simp only [expected, downloads] at ih
      cases res with
      | error err =>
        simp only [expected, downloads, gather, List.nil_append, List.count_append]
        omega
      | ok b =>
        have hle := filter_putFor_le W dst k key b
        simp only [expected, downloads, gather, List.filter_append, List.length_append,
          List.count_append]
        omega
    | _ => simpa [expected, downloads, gather] using ih

theorem expected_two {Img : Type} (W : World Img) (dst a b : String) (data out : Bytes)
    (log : List Event) (hab : a ≠ b) (hout : OptimizeImage W data = .ok out)
    (hall : ∀ e ∈ log, ∀ k res, e.act = .download k res →
      (k = a ∧ ∃ err, res = .error err) ∨ (k = b ∧ res = .ok data)) :
    expected W dst log
      = List.replicate ((downloads log).count b) (⟨b, dst, "optimized/" ++ b, out⟩ : Put) := by
  induction log with
  | nil => simp [expected, downloads, gather]
  | cons e l ih =>
    have ih' := ih (fun e he => hall e (List.mem_cons_of_mem _ he))
    obtain ⟨tid, act⟩ := e
    cases act with
    | download k res =>
      rcases hall ⟨tid, .download k res⟩ (List.mem_cons_self _ _) k res rfl with
        ⟨rfl, err, rfl⟩ | ⟨rfl, rfl⟩
      · simp only [expected, downloads, gather, List.nil_append, List.count_append,
          List.count_cons, List.count_nil]
        simp only [expected, downloads] at ih'
        simp [ih', hab]
      · have hput : putFor W dst k data = [⟨k, dst, "optimized/" ++ k, out⟩] := by
          simp [putFor, hout]
        simp only [expected, downloads, gather, hput, List.count_append,
          List.count_cons, List.count_nil]
        simp only [expected, downloads] at ih'
        rw [ih']
        simp only [List.singleton_append, List.count_nil, Nat.zero_add, beq_self_eq_true,
          if_true]
        rw [Nat.add_comm 1, List.replicate_succ]
    | _ => simpa [expected, downloads, gather] using ih'

/-- C3: in every run over a non-empty listing, at every moment every upload in the
history is a `PutObject` request that `UploadImage` sent to the bucket named by
`DESTINATION_BUCKET`, recorded with the store's answer to that request, and a download
is recorded as returning `b` exactly when `GetObject` on the bucket named by
`SOURCE_BUCKET` answered with the body `b`. When `LambdaHandler` has returned: every
key of the listing has had exactly one download attempt per occurrence; the upload
requests are, up to order, exactly those the successful downloads call for, whatever
any other key did: for every key `k` and bytes `out` the number of requests for `k`
with body `out` to `"optimized/" ++ k` in the destination bucket is the number of
downloads of `k` that returned bytes which `OptimizeImage` turns into `out`; a key has
no more requests than occurrences in the listing; and there are no other requests.
In particular, with the listing `uuid/a.jpg`, `uuid/b.jpg`, the download of the first
failing and the second succeeding, the only request is to `optimized/uuid/b.jpg`. And
from every moment the run can be brought to its return. -/
theorem one_upload_per_good_key {Img : Type} (W : World Img) (keys : List String)
    (hcfg : W.loadConfig = .ok ()) (hlist : ListImages W (clientOf W) = .ok keys)
    (hne : keys ≠ []) :
    (∀ sched pre e post, (LambdaHandler W sched).log = pre ++ e :: post →
      (∀ k bucket dk d res, e.act = .upload k bucket dk d res →
        bucket = Getenv W "DESTINATION_BUCKET" ∧
          res = W.putObject post (Getenv W "DESTINATION_BUCKET") dk d) ∧
      (∀ k res b, e.act = .download k res →
        (res = .ok b ↔ W.getObject post (Getenv W "SOURCE_BUCKET") k = .ok (.ok b)))) ∧
    (∀ sched r, (LambdaHandler W sched).result = some r →
      (downloads (LambdaHandler W sched).log).Perm keys ∧
      (uploads (LambdaHandler W sched).log).Perm
        (expected W (Getenv W "DESTINATION_BUCKET") (LambdaHandler W sched).log) ∧
      (∀ k out, (uploads (LambdaHandler W sched).log).count
          ⟨k, Getenv W "DESTINATION_BUCKET", "optimized/" ++ k, out⟩
        = goodDownloads W k out (LambdaHandler W sched).log) ∧
      (∀ k, ((uploads (LambdaHandler W sched).log).filter
          (fun p => decide (p.key = k))).length ≤ keys.count k) ∧
      (∀ p ∈ uploads (LambdaHandler W sched).log,
        p.bucket = Getenv W "DESTINATION_BUCKET" ∧ p.dstKey = "optimized/" ++ p.key ∧
          0 < goodDownloads W p.key p.data (LambdaHandler W sched).log) ∧
      (∀ data out, keys = ["uuid/a.jpg", "uuid/b.jpg"] →
        (∀ hist, ∃ err, DownloadImage W hist (clientOf W) "uuid/a.jpg" = .error err) →
        (∀ hist, DownloadImage W hist (clientOf W) "uuid/b.jpg" = .ok data) →
        OptimizeImage W data = .ok out →
        uploads (LambdaHandler W sched).log
          = [⟨"uuid/b.jpg", Getenv W "DESTINATION_BUCKET", "optimized/uuid/b.jpg", out⟩])) ∧
    (∀ sched, ∃ ext, (LambdaHandler W (sched ++ ext)).result = some (.ok ())) := by
  refine ⟨?_, ?_, run_returns W keys hcfg hlist hne⟩
  · intro sched pre e post hlog
    obtain ⟨_, _, hdst, hsrc⟩ := run_inv W keys hcfg hlist hne sched
    have hans : Answered W ⟨(LambdaHandler W sched).srcBucket, (LambdaHandler W sched).dstBucket⟩
        (LambdaHandler W sched).log := by
      simp only [LambdaHandler, handlerStart_run W keys hcfg hlist hne]
      exact Answered.exec_answered (by simp [runState, Answered]) sched
    rw [hlog, hsrc, hdst] at hans
    obtain ⟨h1, h2⟩ := Answered.at_event pre post e hans
    constructor
    · intro k bucket dk d res hact
      obtain ⟨hb, hr⟩ := h1 k bucket dk d res hact
      exact ⟨hb, by rw [hr, hb]⟩
    · intro k res b hact
      rw [h2 k res hact]
      exact download_ok_iff W post _ k b
  intro sched r hr
  obtain ⟨hinv, _, hdst, hsrc⟩ := run_inv W keys hcfg hlist hne sched
  have hm := result_main hr
  obtain ⟨_, hws, _, _, _, _⟩ := hinv.at_return hm
  have hdl := (hinv.outcomes_perm hm).2.2
  have hup : (uploads (LambdaHandler W sched).log).Perm
      (expected W (Getenv W "DESTINATION_BUCKET") (LambdaHandler W sched).log) := by
    rw [List.perm_iff_count]
    intro x
    have := hinv.up_count x
    rw [hdst] at this
    simpa [hws, gather, WState.owes] using this
  refine ⟨hdl, hup, ?_, ?_, ?_, ?_⟩
  · intro k out
    rw [hup.count_eq, count_expected]
  · intro k
    have h1 := (hup.filter (fun p => decide (p.key = k))).length_eq
    have h2 := expected_filter_le W (Getenv W "DESTINATION_BUCKET") k (LambdaHandler W sched).log
    rw [hdl.count_eq] at h2
    omega
  · intro p hp
    have hexp := hup.mem_iff.mp hp
    have hform := mem_expected W _ _ _ hexp
    refine ⟨hform.1, hform.2, ?_⟩
    have hpe : p = ⟨p.key, Getenv W "DESTINATION_BUCKET", "optimized/" ++ p.key, p.data⟩ := by
      cases p
      simp only [Put.mk.injEq, true_and, and_true]
      exact ⟨hform.1, hform.2⟩
    rw [← count_expected W (Getenv W "DESTINATION_BUCKET"), ← hpe]
    exact List.count_pos_iff.mpr hexp
  · intro data out hkeys ha hb hout
    subst hkeys
    have hall : ∀ e ∈ (LambdaHandler W sched).log, ∀ k res, e.act = .download k res →
        (k = "uuid/a.jpg" ∧ ∃ err, res = .error err) ∨
          (k = "uuid/b.jpg" ∧ res = .ok data) := by
      intro e he k res hact
      obtain ⟨hist, hres⟩ := hinv.dl_sound e he k res hact
      rw [hsrc, hdst] at hres
      have hk : k ∈ downloads (LambdaHandler W sched).log :=
        (mem_gather _ _ _).mpr ⟨e, he, by simp [hact]⟩
      have hk' := hdl.mem_iff.mp hk
      simp only [List.mem_cons, List.mem_singleton, List.not_mem_nil, or_false] at hk'
      rcases hk' with rfl | rfl
      · obtain ⟨err, herr⟩ := ha hist
        exact Or.inl ⟨rfl, err, by rw [hres]; exact herr⟩
      · exact Or.inr ⟨rfl, by rw [hres]; exact hb hist⟩
    have hexp := expected_two W (Getenv W "DESTINATION_BUCKET") "uuid/a.jpg" "uuid/b.jpg"
      data out _ (by decide) hout hall
    have hcount : (downloads (LambdaHandler W sched).log).count "uuid/b.jpg" = 1 := by
      rw [hdl.count_eq]
      decide
    rw [hexp, hcount] at hup
    exact List.perm_singleton.mp hup

theorem one_upload_per_good_key_witness :
    twoWorld.loadConfig = .ok () ∧
      ListImages twoWorld (clientOf twoWorld) = .ok ["uuid/a.jpg", "uuid/b.jpg"] ∧
      (LambdaHandler twoWorld twoSchedule).result = some (.ok ()) ∧
      uploads (LambdaHandler twoWorld twoSchedule).log
        = [⟨"uuid/b.jpg", "dst", "optimized/uuid/b.jpg", [2]⟩] :=
  ⟨rfl, rfl, rfl,
    ((one_upload_per_good_key twoWorld ["uuid/a.jpg", "uuid/b.jpg"] rfl rfl (by decide)).2.1
      twoSchedule (.ok ()) rfl).2.2.2.2.2 [1, 2] [2] rfl (fun _ => ⟨_, rfl⟩) (fun _ => rfl)
      rfl⟩

end ImageOptimize
